import Mathlib

/-!
Shallow embedding of the reading side of the busoc/log pattern-compiler
library (src/log.go), together with proofs about the claims on its
specification.  Go runes are modelled as Lean Char values and a
bytes.Reader cursor as an index into the rune list (positions are rune
indices; all concrete inputs considered are ASCII, where rune and byte
offsets coincide).  Go machine integers are modelled as unbounded Int;
the arithmetic performed by the paths proved below never overflows
int64 except where explicitly bounded by hypotheses.  The writer /
formatting half of the library is not modelled: no claim concerns it.
-/

namespace GoLog

/-! ### Runtime and compile-time error values

Err.pattern models ErrPattern (the recoverable structural mismatch),
Err.eof models io.EOF as surfaced by bytes.Reader.ReadRune, and
Err.conv models a strconv conversion failure (range or syntax error).
CompE.synErr models ErrSyntax; CompE.fuelErr is returned only when the
fuel of the compiler model runs out, which corresponds to pattern
strings on which the Go compiler loops forever (for example an
unterminated alternation). -/

inductive Err where
  | pattern
  | eof
  | conv
deriving DecidableEq, Repr

inductive CompE where
  | synErr
  | fuelErr
deriving DecidableEq, Repr

/-! ### Character classes (src/log.go lines 1243-1269) -/

def isDigit (r : Char) : Bool := '0' ≤ r && r ≤ '9'

def isHexa (r : Char) : Bool := isDigit r || ('a' ≤ r && r ≤ 'f') || ('A' ≤ r && r ≤ 'F')

def isLetter (r : Char) : Bool := ('a' ≤ r && r ≤ 'z') || ('A' ≤ r && r ≤ 'Z')

def isAlpha (r : Char) : Bool := isDigit r || isLetter r || r = '-' || r = '_'

def isBlank (r : Char) : Bool := r = ' ' || r = '\t'

def isEOL (r : Char) : Bool := r = Char.ofNat 0

def isQuote (r : Char) : Bool := r = '\'' || r = '\"'

/-! ### Cursor: model of a *bytes.Reader over the runes of a line

pos is the current rune index; prev records the index of the last
successfully read rune, as bytes.Reader.prevRune does, so that
UnreadRune can be modelled faithfully (it is a no-op after a failed
read, after a Seek, or at the beginning of the input). -/

structure Cursor where
  s : List Char
  pos : Nat
  prev : Option Nat
deriving DecidableEq, Repr

def Cursor.ofString (str : String) : Cursor := ⟨str.data, 0, none⟩

def Cursor.remaining (c : Cursor) : Nat := c.s.length - c.pos

/-- Model of bytes.Reader.ReadRune: at end of input it returns rune 0
together with io.EOF and clears prevRune; otherwise it returns the
rune at pos, advances, and records prevRune. -/
def Cursor.read (c : Cursor) : Char × Cursor × Option Err :=
  if h : c.pos < c.s.length then
    (c.s.get ⟨c.pos, h⟩, { c with pos := c.pos + 1, prev := some c.pos }, none)
  else
    (Char.ofNat 0, { c with prev := none }, some Err.eof)

/-- Model of bytes.Reader.UnreadRune: moves back to prevRune when one
is recorded and the position is not at the beginning; otherwise it
returns an error, which every caller in log.go ignores, leaving the
cursor unchanged. -/
def Cursor.unread (c : Cursor) : Cursor :=
  if c.pos = 0 then c
  else
    match c.prev with
    | some p => { c with pos := p, prev := none }
    | none => c

/-- Model of the peek helper (src/log.go lines 1237-1241): read one
rune and immediately unread it.  Its net effect keeps pos but always
clears prevRune. -/
def Cursor.peek (c : Cursor) : Char × Cursor :=
  let r := c.read
  (r.1, r.2.1.unread)

/-- Model of bytes.Reader.Seek(k, io.SeekStart): jumps to the absolute
position and clears prevRune. -/
def Cursor.seekStart (c : Cursor) (k : Nat) : Cursor :=
  { c with pos := k, prev := none }

/-! ### parseString (src/log.go lines 1218-1235)

The loop reads runes while accept holds (ignoring read errors: at end
of input the rune read is 0), up to an optional exact length, and a
deferred UnreadRune fires once at return.  The loop is driven by fuel;
the wrappers supply remaining+1 fuel, which is enough for every accept
predicate with accept 0x00 = false (all predicates used by the claims
below).  When accept 0x00 is true the Go loop spins forever at end of
input; the model then stops when the fuel is gone, a state no claim
relies on. -/

def parseStringGo (accept : Char → Bool) (len : Nat) :
    Nat → Nat → Cursor → List Char → List Char × Cursor
  | 0, _, c, buf => (buf, c)
  | fuel + 1, i, c, buf =>
    if len ≠ 0 ∧ len ≤ i then (buf, c)
    else
      let r := c.read
      if accept r.1 then parseStringGo accept len fuel (i + 1) r.2.1 (buf ++ [r.1])
      else (buf, r.2.1)

def parseString (c : Cursor) (len : Nat) (accept : Char → Bool) :
    String × Cursor × Option Err :=
  let r := parseStringGo accept len (c.remaining + 1) 0 c []
  let c2 := r.2.unread
  if len ≠ 0 ∧ r.1.length ≠ len then ("", c2, some Err.pattern)
  else (String.mk r.1, c2, none)

/-! ### parseInt (src/log.go lines 1191-1216)

Any ReadRune error (end of input) aborts parseInt immediately with
that error, even after digits have been consumed.  With width 0 a
rejected rune is unread and the loop stops; with a positive width a
rejected rune yields ErrPattern.  Leading zeros are stripped before
conversion; when nothing remains the target is left at its prior
value.  The conversion models strconv.ParseInt(part, 0, 64) on the
strings reachable here (non-empty, no sign, no leading zero, runes
from the accept class): an all-decimal string yields its decimal value
unless it exceeds 2^63-1 (ErrRange); a string containing a hex letter
is a base-0 syntax error. -/

def decimalVal (l : List Char) : Int :=
  l.foldl (fun acc ch => acc * 10 + ((ch.toNat : Int) - 48)) 0

def strconvParseInt (part : List Char) : Except Err Int :=
  if part.all isDigit then
    let v := decimalVal part
    if v ≤ 9223372036854775807 then Except.ok v else Except.error Err.conv
  else Except.error Err.conv

def parseIntGo (accept : Char → Bool) (n : Nat) :
    Nat → Nat → Cursor → List Char → List Char × Cursor × Option Err
  | 0, _, c, buf => (buf, c, some Err.conv)
  | fuel + 1, i, c, buf =>
    if n ≠ 0 ∧ n ≤ i then (buf, c, none)
    else
      match c.read with
      | (_, c1, some _) => (buf, c1, some Err.eof)
      | (ch, c1, none) =>
        if accept ch then parseIntGo accept n fuel (i + 1) c1 (buf ++ [ch])
        else if n = 0 then (buf, c1.unread, none)
        else (buf, c1, some Err.pattern)

/-- Conversion stage of parseInt: strip the leading zeros, leave the
target untouched when nothing remains, otherwise convert. -/
def parseIntFinish (v : Int) (buf : List Char) (c1 : Cursor) :
    Int × Cursor × Option Err :=
  let part := buf.dropWhile (fun ch => ch = '0')
  if part.isEmpty then (v, c1, none)
  else
    match strconvParseInt part with
    | Except.ok x => (x, c1, none)
    | Except.error e => (v, c1, some e)

def parseInt (v : Int) (n : Nat) (c : Cursor) (accept : Char → Bool) :
    Int × Cursor × Option Err :=
  match parseIntGo accept n (c.remaining + 1) 0 c [] with
  | (_, c1, some e) => (v, c1, some e)
  | (buf, c1, none) => parseIntFinish v buf c1

/-! ### Literal matching

parseLiteral, parseWhenLiteral and parseHostLiteral in src/log.go are
three copies of the same loop: read one input rune per pattern rune
(reading 0 at end of input) and fail with ErrPattern at the first
divergence. -/

def matchLiteral (pat : List Char) (c : Cursor) : Cursor × Option Err :=
  match pat with
  | [] => (c, none)
  | w :: rest =>
    let r := c.read
    if w ≠ r.1 then (r.2.1, some Err.pattern)
    else matchLiteral rest r.2.1

/-! ### Model of the Go time package operations used by log.go

when.Time (src/log.go lines 743-765) calls time.Unix, time.Date,
Time.AddDate and Time.YearDay.  A time.Time value is modelled by the
instant it denotes (Unix seconds plus nanoseconds) together with the
fixed zone offset attached to it (time.UTC is offset 0 and
time.FixedZone carries its offset; time.Unix attaches the local zone,
whose offset is environment dependent — the claims below observe only
the instant of such values, so it is modelled as 0).

time.Date normalizes out-of-range components exactly as Go's norm
function does (floor division, remainder into [0, base)), then counts
days in the proleptic Gregorian calendar.  The day count daysFromCivil
and its inverse civilFromDays use the standard era decomposition,
which agrees with Go's daysSinceEpoch computation on all arguments
with the month already normalized into 1..12 (both count days of the
proleptic Gregorian calendar from 1970-01-01, linearly in the day
component). -/

def norm (hi lo base : Int) : Int × Int := (hi + lo / base, lo % base)

def daysFromCivil (y m d : Int) : Int :=
  let y2 := y - (if m ≤ 2 then 1 else 0)
  let era := y2 / 400
  let yoe := y2 - era * 400
  let mp := m + (if m > 2 then -3 else 9)
  let doy := (153 * mp + 2) / 5 + d - 1
  let doe := yoe * 365 + yoe / 4 - yoe / 100 + doy
  era * 146097 + doe - 719468

def civilFromDays (z : Int) : Int × Int × Int :=
  let z2 := z + 719468
  let era := z2 / 146097
  let doe := z2 - era * 146097
  let yoe := (doe - doe / 1460 + doe / 36524 - doe / 146096) / 365
  let y := yoe + era * 400
  let doy := doe - (365 * yoe + yoe / 4 - yoe / 100)
  let mp := (5 * doy + 2) / 153
  let d := doy - (153 * mp + 2) / 5 + 1
  let m := mp + (if mp < 10 then 3 else -9)
  (y + (if m ≤ 2 then 1 else 0), m, d)

structure GoTime where
  unix : Int
  nsec : Int
  off : Int
deriving DecidableEq, Repr

/-- Model of time.Date(year, mon, day, hour, min, sec, nsec, zone)
for a fixed-offset zone: normalize the components, count days, and
shift the wall-clock seconds by the zone offset to obtain the
instant. -/
def goDate (year mon day hour minute sec nsec off : Int) : GoTime :=
  let p1 := norm year (mon - 1) 12
  let p2 := norm sec nsec 1000000000
  let p3 := norm minute p2.1 60
  let p4 := norm hour p3.1 60
  let p5 := norm day p4.1 24
  let abs := daysFromCivil p1.1 (p1.2 + 1) p5.1 * 86400 + p5.2 * 3600 + p4.2 * 60 + p3.2
  { unix := abs - off, nsec := p2.2, off := off }

/-- Day number (days since 1970-01-01) of the wall-clock date of a
time value in its own zone, as Go derives it from the absolute
seconds. -/
def GoTime.days (t : GoTime) : Int := (t.unix + t.off) / 86400

/-- Wall-clock seconds within the day, in the value's own zone. -/
def GoTime.clockSecs (t : GoTime) : Int := (t.unix + t.off) % 86400

/-- Model of Time.YearDay: one plus the number of days since January
1 of the wall-clock year. -/
def GoTime.yearDay (t : GoTime) : Int :=
  t.days - daysFromCivil (civilFromDays t.days).1 1 1 + 1

/-- Model of Time.AddDate(0, 0, n): rebuild the date from the
wall-clock components with the day shifted by n, in the same zone. -/
def GoTime.addDays (t : GoTime) (n : Int) : GoTime :=
  let ymd := civilFromDays t.days
  let secs := t.clockSecs
  goDate ymd.1 ymd.2.1 (ymd.2.2 + n) (secs / 3600) (secs / 60 % 60) (secs % 60) t.nsec t.off

/-- The zero value of time.Time: January 1 of year 1, 00:00:00 UTC. -/
def goTimeZero : GoTime := goDate 1 1 1 0 0 0 0 0

/-! ### The time accumulator (src/log.go lines 729-765) -/

structure When where
  Year : Int := 0
  Mon : Int := 0
  Day : Int := 0
  Hour : Int := 0
  Min : Int := 0
  Sec : Int := 0
  Frac : Int := 0
  Zone : Int := 0
  YearDay : Int := 0
  Unix : Int := 0
deriving DecidableEq, Repr

/-- The calendar-branch date of when.Time before the day-of-year
adjustment: unset year, month and day each default to 1, and the zone
offset is the captured Zone (time.UTC when it is 0). -/
def When.baseTime (w : When) : GoTime :=
  goDate (if w.Year = 0 then w.Year + 1 else w.Year)
    (if w.Mon = 0 then w.Mon + 1 else w.Mon)
    (if w.Day = 0 then w.Day + 1 else w.Day)
    w.Hour w.Min w.Sec w.Frac w.Zone

/-- Model of when.Time (src/log.go lines 743-765): a populated Unix
component short-circuits to time.Unix(unix, 0); otherwise the
defaulted calendar date is built and, when YearDay is positive,
shifted by YearDay - t.YearDay() + 1 days. -/
def When.time (w : When) : GoTime :=
  if w.Unix ≠ 0 then { unix := w.Unix, nsec := 0, off := 0 }
  else
    let t := w.baseTime
    if w.YearDay > 0 then t.addDays (w.YearDay - t.yearDay + 1) else t

/-! ### Time scanners (src/log.go lines 699-963)

The day and month tables are sorted by init() at startup; the sorted
contents are inlined here.  sort.SearchStrings performs binary search
for the least index whose entry is greater than or equal to the key,
which on a list is the first such index. -/

def days : List String :=
  ["fri", "mon", "sat", "sun", "thu", "tue", "wed"]

def months : List String :=
  ["apr", "aug", "dec", "feb", "jan", "jul", "jun", "mar", "may", "nov", "oct", "sep"]

/-- Lexicographic byte-order comparison of Go strings, restricted to
the ASCII names that reach it (char order equals byte order there). -/
def strLe : List Char → List Char → Bool
  | [], _ => true
  | _ :: _, [] => false
  | a :: as, b :: bs =>
    if a.toNat < b.toNat then true
    else if b.toNat < a.toNat then false
    else strLe as bs

def searchStrings (l : List String) (x : String) : Nat :=
  l.findIdx (fun s => strLe x.data s.data)

/-- Model of strings.ToLower restricted to ASCII, the only runes the
letter-class scanners can produce. -/
def toLowerChar (ch : Char) : Char :=
  if 'A' ≤ ch ∧ ch ≤ 'Z' then Char.ofNat (ch.toNat + 32) else ch

def toLowerStr (s : String) : String := String.mk (s.data.map toLowerChar)

def isoPattern : String := "%y-%m-%d %H:%M:%S%Z"

def rfcPattern : String := "%y-%m-%dT%H:%M:%S%Z"

abbrev WhenFn := When → Cursor → When × Cursor × Option Err

def parseYear : WhenFn := fun w c =>
  let r := parseInt w.Year 4 c isDigit
  ({ w with Year := r.1 }, r.2.1, r.2.2)

def parseDOY : WhenFn := fun w c =>
  let r := parseInt w.YearDay 3 c isDigit
  ({ w with YearDay := r.1 }, r.2.1, r.2.2)

def parseDay : WhenFn := fun w c =>
  let r := parseInt w.Day 2 c isDigit
  ({ w with Day := r.1 }, r.2.1, r.2.2)

def parseMonth : WhenFn := fun w c =>
  let r := parseInt w.Mon 2 c isDigit
  ({ w with Mon := r.1 }, r.2.1, r.2.2)

def parseHour : WhenFn := fun w c =>
  let r := parseInt w.Hour 2 c isDigit
  ({ w with Hour := r.1 }, r.2.1, r.2.2)

def parseMinute : WhenFn := fun w c =>
  let r := parseInt w.Min 2 c isDigit
  ({ w with Min := r.1 }, r.2.1, r.2.2)

def parseSecond : WhenFn := fun w c =>
  let r := parseInt w.Sec 2 c isDigit
  ({ w with Sec := r.1 }, r.2.1, r.2.2)

def parseTimestamp : WhenFn := fun w c =>
  let r := parseInt w.Unix 0 c isDigit
  ({ w with Unix := r.1 }, r.2.1, r.2.2)

/-- Model of parseDayStr: exactly three letters, lower-cased, looked
up in the sorted day table; no field is written on success. -/
def parseDayStr : WhenFn := fun w c =>
  match parseString c 3 isLetter with
  | (_, c1, some e) => (w, c1, some e)
  | (day, c1, none) =>
    let d := toLowerStr day
    let x := searchStrings days d
    if x < days.length ∧ days.getD x "" = d then (w, c1, none)
    else (w, c1, some Err.pattern)

/-- Model of parseMonthStr: as parseDayStr, but the month stored is
one plus the index found in the sorted table. -/
def parseMonthStr : WhenFn := fun w c =>
  match parseString c 3 isLetter with
  | (_, c1, some e) => (w, c1, some e)
  | (mon, c1, none) =>
    let m := toLowerStr mon
    let x := searchStrings months m
    if x < months.length ∧ months.getD x "" = m then
      ({ w with Mon := (x : Int) + 1 }, c1, none)
    else (w, c1, some Err.pattern)

/-- Model of parseZone (src/log.go lines 908-935).  Note that the
increment and the sign apply to the prior Zone value, that only the
hour term is multiplied by the sign, and that the minute parseInt
reuses the variable still holding the hour value (so all-zero minute
digits leave it at the hour value). -/
def parseZone : WhenFn := fun w c =>
  let r0 := c.read
  if r0.1 = 'Z' then (w, r0.2.1, none)
  else if r0.1 = '+' ∨ r0.1 = '-' then
    let zone1 := w.Zone + 1
    let zone2 := if r0.1 = '-' then zone1 * (-1) else zone1
    match parseInt 0 2 r0.2.1 isDigit with
    | (_, c2, some e) => ({ w with Zone := zone2 }, c2, some e)
    | (i1, c2, none) =>
      let zone3 := zone2 * (i1 * 60 * 60)
      let pk := c2.peek
      let c3 := if pk.1 = ':' then (pk.2.read).2.1 else pk.2
      let pk2 := c3.peek
      if isDigit pk2.1 then
        match parseInt i1 2 pk2.2 isDigit with
        | (_, c4, some e) => ({ w with Zone := zone3 }, c4, some e)
        | (i2, c4, none) => ({ w with Zone := zone3 + i2 * 60 }, c4, none)
      else ({ w with Zone := zone3 }, pk2.2, none)
  else (w, r0.2.1, some Err.pattern)

/-- Model of parseFraction: the captured integer is scaled to
nanoseconds by magnitude (values below 1000 are treated as
milliseconds, below 1000000 as microseconds). -/
def parseFraction : WhenFn := fun w c =>
  match parseInt w.Frac 0 c isDigit with
  | (v, c1, some e) => ({ w with Frac := v }, c1, some e)
  | (v, c1, none) =>
    let f := if v < 1000 then v * (1000 * 1000) else if v < 1000 * 1000 then v * 1000 else v
    ({ w with Frac := f }, c1, none)

def parseWhenLiteral (str : String) : WhenFn := fun w c =>
  let r := matchLiteral str.data c
  (w, r.1, r.2)

def mergeWhen (wfs : List WhenFn) : WhenFn := fun w c =>
  match wfs with
  | [] => (w, c, none)
  | f :: rest =>
    match f w c with
    | (w1, c1, none) => mergeWhen rest w1 c1
    | (w1, c1, some e) => (w1, c1, some e)

/-- Compiler loop of parseTimePattern (src/log.go lines 767-836),
driven by fuel; the %I and %R shorthands both recursively compile
isoPattern (as the source does). -/
def parseTimePatternGo : Nat → Cursor → List Char → List WhenFn →
    Except CompE (List WhenFn)
  | 0, _, _, _ => Except.error CompE.fuelErr
  | fuel + 1, c, buf, wfs =>
    if c.remaining = 0 then
      Except.ok (if buf.isEmpty then wfs else wfs ++ [parseWhenLiteral (String.mk buf)])
    else
      let r := c.read
      if r.1 = '%' then
        let r2 := r.2.1.read
        if r2.1 = '%' then parseTimePatternGo fuel r2.2.1 (buf ++ ['%']) wfs
        else
          let wfs1 := if buf.isEmpty then wfs else wfs ++ [parseWhenLiteral (String.mk buf)]
          if r2.1 = 'I' ∨ r2.1 = 'R' then
            match parseTimePatternGo fuel (Cursor.ofString isoPattern) [] [] with
            | Except.error e => Except.error e
            | Except.ok sub => parseTimePatternGo fuel r2.2.1 [] (wfs1 ++ [mergeWhen sub])
          else if r2.1 = 'y' then parseTimePatternGo fuel r2.2.1 [] (wfs1 ++ [parseYear])
          else if r2.1 = 'm' then parseTimePatternGo fuel r2.2.1 [] (wfs1 ++ [parseMonth])
          else if r2.1 = 'd' then parseTimePatternGo fuel r2.2.1 [] (wfs1 ++ [parseDay])
          else if r2.1 = 'j' then parseTimePatternGo fuel r2.2.1 [] (wfs1 ++ [parseDOY])
          else if r2.1 = 'a' then parseTimePatternGo fuel r2.2.1 [] (wfs1 ++ [parseDayStr])
          else if r2.1 = 'b' then parseTimePatternGo fuel r2.2.1 [] (wfs1 ++ [parseMonthStr])
          else if r2.1 = 's' then parseTimePatternGo fuel r2.2.1 [] (wfs1 ++ [parseTimestamp])
          else if r2.1 = 'H' then parseTimePatternGo fuel r2.2.1 [] (wfs1 ++ [parseHour])
          else if r2.1 = 'M' then parseTimePatternGo fuel r2.2.1 [] (wfs1 ++ [parseMinute])
          else if r2.1 = 'S' then parseTimePatternGo fuel r2.2.1 [] (wfs1 ++ [parseSecond])
          else if r2.1 = 'f' then parseTimePatternGo fuel r2.2.1 [] (wfs1 ++ [parseFraction])
          else if r2.1 = 'Z' then parseTimePatternGo fuel r2.2.1 [] (wfs1 ++ [parseZone])
          else Except.error CompE.synErr
      else parseTimePatternGo fuel r.2.1 (buf ++ [r.1]) wfs

def parseTimePattern (fuel : Nat) (pattern : String) : Except CompE WhenFn :=
  let p := if pattern = "" then isoPattern else pattern
  (parseTimePatternGo fuel (Cursor.ofString p) [] []).map mergeWhen

/-! ### Host scanners (src/log.go lines 965-1189)

intItoa and intToHex model strconv.Itoa and strconv.FormatInt(_, 16)
on the values reachable here (which the range checks keep
non-negative). -/

def digitChar (n : Nat) : Char :=
  Char.ofNat (if n < 10 then 48 + n else 87 + n)

def natToBaseGo (b : Nat) : Nat → Nat → List Char → List Char
  | 0, n, acc => digitChar n :: acc
  | fuel + 1, n, acc =>
    if n < b then digitChar n :: acc
    else natToBaseGo b fuel (n / b) (digitChar (n % b) :: acc)

def intItoa (i : Int) : List Char :=
  if i < 0 then '-' :: natToBaseGo 10 i.natAbs i.natAbs []
  else natToBaseGo 10 i.toNat i.toNat []

def intToHex (i : Int) : List Char :=
  if i < 0 then '-' :: natToBaseGo 16 i.natAbs i.natAbs []
  else natToBaseGo 16 i.toNat i.toNat []

def ip4len : Nat := 4

def ip6len : Nat := 8

def ip4long : String := "%4:%p"

def ip6long : String := "%6:%p"

def fqdnlong : String := "%f:%p"

structure Host where
  Name : String := ""
  Addr : String := ""
  Mask : Int := 0
  Port : Int := 0
deriving DecidableEq, Repr

/-- Model of host.String: a symbolic name wins; otherwise addr:port. -/
def Host.render (h : Host) : String :=
  if h.Name ≠ "" then h.Name else h.Addr ++ ":" ++ String.mk (intItoa h.Port)

abbrev HostFn := Host → Cursor → Host × Cursor × Option Err

/-- Epilogue shared by the two address loops: after the octet or
group loop the closing bracket is checked (the peek runs regardless
of the opening quote) and only then is Addr written. -/
def hostAddrEnd (quote : Char) (buf : List Char) (h : Host) (c : Cursor) :
    Host × Cursor × Option Err :=
  let pk := c.peek
  if quote = '[' then
    if pk.1 ≠ ']' then (h, pk.2, some Err.pattern)
    else ({ h with Addr := String.mk buf }, (pk.2.read).2.1, none)
  else ({ h with Addr := String.mk buf }, pk.2, none)

/-- Octet loop of parseIPv4 (src/log.go lines 1077-1110): count is the
number of octets still to scan. -/
def parseIPv4Go (quote : Char) : Nat → List Char → Host → Cursor →
    Host × Cursor × Option Err
  | 0, buf, h, c => hostAddrEnd quote buf h c
  | n + 1, buf, h, c =>
    match parseInt 0 0 c isDigit with
    | (_, c1, some e) => (h, c1, some e)
    | (j, c1, none) =>
      if j < 0 ∨ j > 255 then (h, c1, some Err.pattern)
      else
        let buf1 := buf ++ intItoa j
        if n = 0 then hostAddrEnd quote buf1 h c1
        else
          let pk := c1.peek
          if pk.1 ≠ '.' then (h, pk.2, some Err.pattern)
          else parseIPv4Go quote n (buf1 ++ ['.']) h ((pk.2.read).2.1)

def parseIPv4 : HostFn := fun h c =>
  let pq := c.peek
  let c1 := if pq.1 = '[' then (pq.2.read).2.1 else pq.2
  parseIPv4Go pq.1 ip4len [] h c1

/-- Group loop of parseIPv6 (src/log.go lines 1112-1149): a missing
colon before the last group breaks out of the loop early (supporting
zero compression), and an immediately following second colon is
copied through. -/
def parseIPv6Go (quote : Char) : Nat → List Char → Host → Cursor →
    Host × Cursor × Option Err
  | 0, buf, h, c => hostAddrEnd quote buf h c
  | n + 1, buf, h, c =>
    match parseInt 0 0 c isHexa with
    | (_, c1, some e) => (h, c1, some e)
    | (j, c1, none) =>
      if j < 0 ∨ j > 65535 then (h, c1, some Err.pattern)
      else
        let buf1 := buf ++ intToHex j
        if n = 0 then hostAddrEnd quote buf1 h c1
        else
          let pk := c1.peek
          if pk.1 ≠ ':' then hostAddrEnd quote buf1 h pk.2
          else
            let c2 := (pk.2.read).2.1
            let pk2 := c2.peek
            if pk2.1 = ':' then parseIPv6Go quote n (buf1 ++ [':', ':']) h ((pk2.2.read).2.1)
            else parseIPv6Go quote n (buf1 ++ [':']) h pk2.2

def parseIPv6 : HostFn := fun h c =>
  let pq := c.peek
  let c1 := if pq.1 = '[' then (pq.2.read).2.1 else pq.2
  parseIPv6Go pq.1 ip6len [] h c1

def parseMask : HostFn := fun h c =>
  match parseInt h.Mask 0 c isDigit with
  | (v, c1, some e) => ({ h with Mask := v }, c1, some e)
  | (v, c1, none) =>
    if v < 0 ∨ v > 32 then ({ h with Mask := v }, c1, some Err.pattern)
    else ({ h with Mask := v }, c1, none)

def parsePort : HostFn := fun h c =>
  match parseInt h.Port 0 c isDigit with
  | (v, c1, some e) => ({ h with Port := v }, c1, some e)
  | (v, c1, none) =>
    if v < 0 ∨ v > 65535 then ({ h with Port := v }, c1, some Err.pattern)
    else ({ h with Port := v }, c1, none)

def parseHostname : HostFn := fun h c =>
  let r := parseString c 0 isAlpha
  ({ h with Name := r.1 }, r.2.1, none)

/-- Label loop of parseFQDN (src/log.go lines 1176-1189): accumulate
alphanumeric labels joined by dots until no dot follows. -/
def parseFQDNGo : Nat → Cursor → List Char → List Char × Cursor
  | 0, c, buf => (buf, c)
  | fuel + 1, c, buf =>
    let r := parseString c 0 isAlpha
    let buf1 := buf ++ r.1.data
    let pk := r.2.1.peek
    if pk.1 ≠ '.' then (buf1, pk.2)
    else parseFQDNGo fuel ((pk.2.read).2.1) (buf1 ++ ['.'])

def parseFQDN : HostFn := fun h c =>
  let r := parseFQDNGo (c.s.length + 1) c []
  ({ h with Name := String.mk r.1 }, r.2, none)

def parseHostLiteral (str : String) : HostFn := fun h c =>
  let r := matchLiteral str.data c
  (h, r.1, r.2)

def mergeHost (hfs : List HostFn) : HostFn := fun h c =>
  match hfs with
  | [] => (h, c, none)
  | f :: rest =>
    match f h c with
    | (h1, c1, none) => mergeHost rest h1 c1
    | (h1, c1, some e) => (h1, c1, some e)

/-- Compiler loop of parseHostPattern (src/log.go lines 990-1050),
driven by fuel; %F, %S and %Q recursively compile their compound
templates. -/
def parseHostPatternGo : Nat → Cursor → List Char → List HostFn →
    Except CompE (List HostFn)
  | 0, _, _, _ => Except.error CompE.fuelErr
  | fuel + 1, c, buf, hfs =>
    if c.remaining = 0 then
      Except.ok (if buf.isEmpty then hfs else hfs ++ [parseHostLiteral (String.mk buf)])
    else
      let r := c.read
      if r.1 = '%' then
        let r2 := r.2.1.read
        if r2.1 = '%' then parseHostPatternGo fuel r2.2.1 (buf ++ ['%']) hfs
        else
          let hfs1 := if buf.isEmpty then hfs else hfs ++ [parseHostLiteral (String.mk buf)]
          if r2.1 = '4' then parseHostPatternGo fuel r2.2.1 [] (hfs1 ++ [parseIPv4])
          else if r2.1 = '6' then parseHostPatternGo fuel r2.2.1 [] (hfs1 ++ [parseIPv6])
          else if r2.1 = 'p' then parseHostPatternGo fuel r2.2.1 [] (hfs1 ++ [parsePort])
          else if r2.1 = 'f' then parseHostPatternGo fuel r2.2.1 [] (hfs1 ++ [parseFQDN])
          else if r2.1 = 'h' then parseHostPatternGo fuel r2.2.1 [] (hfs1 ++ [parseHostname])
          else if r2.1 = 'm' then parseHostPatternGo fuel r2.2.1 [] (hfs1 ++ [parseMask])
          else if r2.1 = 'F' ∨ r2.1 = 'S' ∨ r2.1 = 'Q' then
            let sub := if r2.1 = 'F' then ip4long else if r2.1 = 'S' then ip6long else fqdnlong
            match parseHostPatternGo fuel (Cursor.ofString sub) [] [] with
            | Except.error e => Except.error e
            | Except.ok s => parseHostPatternGo fuel r2.2.1 [] (hfs1 ++ [mergeHost s])
          else Except.error CompE.synErr
      else parseHostPatternGo fuel r.2.1 (buf ++ [r.1]) hfs

def parseHostPattern (fuel : Nat) (pattern : String) : Except CompE HostFn :=
  (parseHostPatternGo fuel (Cursor.ofString pattern) [] []).map mergeHost

/-! ### The record and the entry-level extractors (src/log.go lines 81-697) -/

structure Entry where
  Line : String := ""
  Pid : Int := 0
  Process : String := ""
  User : String := ""
  Group : String := ""
  Level : String := ""
  Message : String := ""
  Words : List String := []
  Host : String := ""
  When : GoTime := goTimeZero
deriving DecidableEq, Repr

abbrev ParseFn := Entry → Cursor → Entry × Cursor × Option Err

def parseLiteral (str : String) : ParseFn := fun e c =>
  let r := matchLiteral str.data c
  (e, r.1, r.2)

def parsePID : ParseFn := fun e c =>
  let r := parseInt e.Pid 0 c isDigit
  ({ e with Pid := r.1 }, r.2.1, r.2.2)

def parseProcess : ParseFn := fun e c =>
  let r := parseString c 0 isAlpha
  ({ e with Process := r.1 }, r.2.1, none)

def parseUser : ParseFn := fun e c =>
  let r := parseString c 0 isAlpha
  ({ e with User := r.1 }, r.2.1, none)

def parseGroup : ParseFn := fun e c =>
  let r := parseString c 0 isAlpha
  ({ e with Group := r.1 }, r.2.1, none)

def parseMessage : ParseFn := fun e c =>
  let r := parseString c 0 (fun r => ¬ isEOL r)
  ({ e with Message := r.1 }, r.2.1, none)

def parseBlank : ParseFn := fun e c =>
  let r := parseString c 0 isBlank
  (e, r.2.1, none)

def parseDiscard (next : Char) : ParseFn := fun e c =>
  let r := parseString c 0 (fun r => r ≠ next)
  (e, r.2.1, none)

/-- Model of strings.TrimSpace restricted to the ASCII space runes. -/
def isSpaceGo (ch : Char) : Bool :=
  ch = ' ' || ch = '\t' || ch = '\n' || ch = '\r' || ch = Char.ofNat 11 || ch = Char.ofNat 12

def trimSpace (l : List Char) : List Char :=
  ((l.dropWhile isSpaceGo).reverse.dropWhile isSpaceGo).reverse

/-- Word loop of parseWord (src/log.go lines 624-659): in the
unquoted form a blank or the end-of-input sentinel ends the word; in
the quoted form the sentinel is ErrPattern and the closing quote ends
the word.  The fuel supplied by parseWord always suffices, because
both delimiters stop at the sentinel. -/
def parseWordGo (quote : Option Char) : Nat → Cursor → List Char →
    List Char × Cursor × Option Err
  | 0, c, buf => (buf, c, some Err.pattern)
  | fuel + 1, c, buf =>
    let r := c.read
    match quote with
    | none =>
      if isBlank r.1 || isEOL r.1 then (buf, r.2.1, none)
      else parseWordGo none fuel r.2.1 (buf ++ [r.1])
    | some q =>
      if isEOL r.1 then (buf, r.2.1, some Err.pattern)
      else if r.1 = q then (buf, r.2.1, none)
      else parseWordGo (some q) fuel r.2.1 (buf ++ [r.1])

/-- Model of parseWord: the unused string argument mirrors the source
signature.  Only the unquoted form unreads the delimiter; the trimmed
word is appended to Words when non-empty. -/
def parseWord (_str : String) : ParseFn := fun e c =>
  let pq := c.peek
  if isQuote pq.1 then
    let c1 := (pq.2.read).2.1
    match parseWordGo (some pq.1) (c1.remaining + 1) c1 [] with
    | (_, c2, some er) => (e, c2, some er)
    | (buf, c2, none) =>
      let w := trimSpace buf
      (if w ≠ [] then { e with Words := e.Words ++ [String.mk w] } else e, c2, none)
  else
    match parseWordGo none (pq.2.remaining + 1) pq.2 [] with
    | (_, c2, some er) => (e, c2, some er)
    | (buf, c2, none) =>
      let c3 := c2.unread
      let w := trimSpace buf
      (if w ≠ [] then { e with Words := e.Words ++ [String.mk w] } else e, c3, none)

/-- Comma splitter modelling strings.Split(s, ",") on rune lists. -/
def splitComma : List Char → List Char → List String
  | [], cur => [String.mk cur.reverse]
  | ch :: rest, cur =>
    if ch = ',' then String.mk cur.reverse :: splitComma rest []
    else splitComma rest (ch :: cur)

def insertSorted (x : String) : List String → List String
  | [] => [x]
  | y :: ys => if strLe x.data y.data then x :: y :: ys else y :: insertSorted x ys

/-- Deterministic sort modelling sort.Strings. -/
def sortStrings (l : List String) : List String := l.foldr insertSorted []

/-- Model of parseLevel (src/log.go lines 536-558): the compile-time
argument has its blanks removed, is split on commas and sorted; at
run time the scanned letter run must be a member of a non-empty list
(an empty list accepts anything). -/
def parseLevel (level : String) : ParseFn :=
  let stripped := level.data.filter (fun r => ¬ isBlank r)
  let levels : List String :=
    if stripped ≠ [] then sortStrings (splitComma stripped []) else []
  fun e c =>
    let r := parseString c 0 isLetter
    let e1 := { e with Level := r.1 }
    let x := searchStrings levels r.1
    if levels.length > 0 ∧ (x ≥ levels.length ∨ levels.getD x "" ≠ r.1) then
      (e1, r.2.1, some Err.pattern)
    else (e1, r.2.1, none)

/-- Runtime wrapper of parseTime (src/log.go lines 560-576): run the
compiled time chain on a fresh accumulator and store the resolved
instant only on success. -/
def parseTimeRun (wf : WhenFn) : ParseFn := fun e c =>
  match wf {} c with
  | (w, c1, none) => ({ e with When := w.time }, c1, none)
  | (_, c1, some er) => (e, c1, some er)

/-- Runtime wrapper of parseHost (src/log.go lines 578-592). -/
def parseHostRun (hf : HostFn) : ParseFn := fun e c =>
  match hf {} c with
  | (h, c1, none) => ({ e with Host := h.render }, c1, none)
  | (_, c1, some er) => (e, c1, some er)

def mergeParse (pfs : List ParseFn) : ParseFn := fun e c =>
  match pfs with
  | [] => (e, c, none)
  | f :: rest =>
    match f e c with
    | (e1, c1, none) => mergeParse rest e1 c1
    | (e1, c1, some er) => (e1, c1, some er)

/-! ### Alternation (src/log.go lines 508-534)

parseAlt records the cursor position (the Seek clears prevRune), runs
the alternatives in order on the shared record, and rewinds to the
recorded position after each failure.  Because the rewinding Seek
overwrites the err variable with nil, a failure of the last
alternative leaves err nil and the loop falls through to return nil:
an alternation whose every branch mismatches succeeds without
consuming input. -/

def altGo : List ParseFn → Entry → Cursor → Nat → Entry × Cursor × Option Err
  | [], e, c, _ => (e, c, none)
  | pf :: rest, e, c, seek =>
    match pf e c with
    | (e1, c1, none) => (e1, c1, none)
    | (e1, c1, some _) => altGo rest e1 (c1.seekStart seek) seek

def parseAltRun (pfs : List ParseFn) : ParseFn := fun e c =>
  altGo pfs e { c with prev := none } c.pos

def parseAlt (pfs : List ParseFn) : Except CompE ParseFn :=
  if pfs.isEmpty then Except.error CompE.synErr else Except.ok (parseAltRun pfs)

/-! ### The top-level pattern compiler (src/log.go lines 345-506) -/

/-- Model of parseArgument: a missing opening parenthesis falls back
to the option (when present, unreading the rune); otherwise runes are
collected up to the closing parenthesis, at most 64 of them. -/
def parseArgumentGo : Nat → Cursor → List Char → Except CompE (String × Cursor)
  | 0, _, _ => Except.error CompE.fuelErr
  | fuel + 1, c, buf =>
    if c.remaining = 0 then Except.error CompE.synErr
    else
      let r := c.read
      if r.1 = ')' then Except.ok (String.mk buf, r.2.1)
      else if buf.length + 1 > 64 then Except.error CompE.synErr
      else parseArgumentGo fuel r.2.1 (buf ++ [r.1])

def parseArgument (c : Cursor) (option : String) : Except CompE (String × Cursor) :=
  let r := c.read
  if r.1 ≠ '(' then
    if option ≠ "" then Except.ok (option, r.2.1.unread)
    else Except.error CompE.synErr
  else parseArgumentGo (c.remaining + 1) r.2.1 []

/-- Model of parseSpecifier (src/log.go lines 406-448): returns the
compiled extractor for one specifier, consuming its argument from the
pattern cursor. -/
def parseSpecifier (fuel : Nat) (c : Cursor) (r : Char) :
    Except CompE (ParseFn × Cursor) :=
  if r = 't' then
    match parseArgument c rfcPattern with
    | Except.error e => Except.error e
    | Except.ok (arg, c1) =>
      match parseTimePattern fuel arg with
      | Except.error e => Except.error e
      | Except.ok wf => Except.ok (parseTimeRun wf, c1)
  else if r = 'b' then Except.ok (parseBlank, c)
  else if r = 'n' then Except.ok (parseProcess, c)
  else if r = 'p' then Except.ok (parsePID, c)
  else if r = 'u' then Except.ok (parseUser, c)
  else if r = 'g' then Except.ok (parseGroup, c)
  else if r = 'h' then
    match parseArgument c "%f" with
    | Except.error e => Except.error e
    | Except.ok (arg, c1) =>
      match parseHostPattern fuel arg with
      | Except.error e => Except.error e
      | Except.ok hf => Except.ok (parseHostRun hf, c1)
  else if r = 'l' then
    match parseArgument c "-" with
    | Except.error e => Except.error e
    | Except.ok (arg, c1) =>
      Except.ok (parseLevel (if arg = "-" then "" else arg), c1)
  else if r = 'm' then Except.ok (parseMessage, c)
  else if r = 'w' then Except.ok (parseWord "", c)
  else if r = '*' then Except.ok (parseDiscard c.peek.1, c.peek.2)
  else Except.error CompE.synErr

mutual

/-- Model of parsePatternUntil (src/log.go lines 357-404): the
recursive-descent loop over the pattern runes, stopping at the first
rune accepted by the until predicate (the end-of-input sentinel at
top level; the pipe and closing parenthesis inside alternation). -/
def parsePatternUntilGo : Nat → Cursor → (Char → Bool) → List Char → List ParseFn →
    Except CompE (Char × ParseFn × Cursor)
  | 0, _, _, _, _ => Except.error CompE.fuelErr
  | fuel + 1, c, untl, buf, pfs =>
    let r := c.read
    if untl r.1 then
      let pfs1 := if buf.isEmpty then pfs else pfs ++ [parseLiteral (String.mk buf)]
      Except.ok (r.1, mergeParse pfs1, r.2.1)
    else if r.1 = '%' then
      let r2 := r.2.1.read
      if r2.1 = '%' then parsePatternUntilGo fuel r2.2.1 untl (buf ++ ['%']) pfs
      else
        let pfs1 := if buf.isEmpty then pfs else pfs ++ [parseLiteral (String.mk buf)]
        match parseSpecifier fuel r2.2.1 r2.1 with
        | Except.error e => Except.error e
        | Except.ok (pf, c2) => parsePatternUntilGo fuel c2 untl [] (pfs1 ++ [pf])
    else if r.1 = '@' then
      let pfs1 := pfs
      match parseAlternativeGo fuel r.2.1 with
      | Except.error e => Except.error e
      | Except.ok (pf, c2) => parsePatternUntilGo fuel c2 untl buf (pfs1 ++ [pf])
    else if r.1 = '\\' then
      let r2 := r.2.1.read
      if r2.1 = '\\' ∨ r2.1 = '@' ∨ r2.1 = '*' ∨ r2.1 = '(' ∨ r2.1 = ')' ∨ r2.1 = '|' then
        parsePatternUntilGo fuel r2.2.1 untl (buf ++ [r2.1]) pfs
      else Except.error CompE.synErr
    else parsePatternUntilGo fuel r.2.1 untl (buf ++ [r.1]) pfs

/-- Model of parseAlternative (src/log.go lines 483-506): expects an
opening parenthesis, then collects pipe-separated sub-patterns up to
the closing parenthesis and combines them through parseAlt. -/
def parseAlternativeGo (fuel : Nat) (c : Cursor) : Except CompE (ParseFn × Cursor) :=
  match fuel with
  | 0 => Except.error CompE.fuelErr
  | fuel + 1 =>
    let r := c.read
    if r.1 ≠ '(' then Except.error CompE.synErr
    else parseAlternativeLoop fuel r.2.1 []

def parseAlternativeLoop : Nat → Cursor → List ParseFn → Except CompE (ParseFn × Cursor)
  | 0, _, _ => Except.error CompE.fuelErr
  | fuel + 1, c, pfs =>
    match parsePatternUntilGo fuel c (fun ch => ch = '|' ∨ ch = ')') [] [] with
    | Except.error e => Except.error e
    | Except.ok (last, pf, c1) =>
      if last ≠ '|' ∧ last ≠ ')' then Except.error CompE.synErr
      else
        let pfs1 := pfs ++ [pf]
        if last = ')' then
          match parseAlt pfs1 with
          | Except.error e => Except.error e
          | Except.ok f => Except.ok (f, c1)
        else parseAlternativeLoop fuel c1 pfs1

end

/-- Model of parsePattern (src/log.go lines 345-355): the empty
pattern is a syntax error; otherwise the pattern is compiled with the
end-of-input sentinel as terminator.  The fuel is generous enough for
every terminating compilation considered below. -/
def parsePattern (pattern : String) : Except CompE ParseFn :=
  if pattern = "" then Except.error CompE.synErr
  else
    (parsePatternUntilGo ((pattern.length + 64) * 8) (Cursor.ofString pattern)
      (fun ch => ch = Char.ofNat 0) [] []).map (fun r => r.2.1)

/-! ### The stream reader (src/log.go lines 95-166)

The underlying bufio.Scanner is modelled by the list of lines it
would produce.  Reader.Read declares one record variable before its
loop and passes the same record to the extractor chain on every line
attempt, so state written while processing a line that is later
skipped survives into subsequent attempts.  A mismatch (ErrPattern)
or a rejection by the filter silently moves to the next line; an
empty line is skipped before parsing; any other error is returned
(and would be sticky on the Go reader).  Exhaustion surfaces io.EOF.
parseFilter (src/log.go lines 338-343) returns an accept-everything
predicate for the empty filter string and a nil predicate otherwise,
which Reader.Read also treats as accept-everything. -/

def readGo (p : ParseFn) (keep : Entry → Bool) (e : Entry) :
    List String → Entry × Option Err × List String
  | [] => (e, some Err.eof, [])
  | line :: rest =>
    if line.length = 0 then readGo p keep e rest
    else
      match p e (Cursor.ofString line) with
      | (e1, _, some Err.pattern) => readGo p keep e1 rest
      | (e1, _, some er) => (e1, some er, rest)
      | (e1, _, none) =>
        if keep e1 then ({ e1 with Line := line }, none, rest)
        else readGo p keep e1 rest

/-- Compile a pattern as NewReader does (with the empty filter, whose
predicate accepts every record) and perform one Read over the given
lines, returning the record and the error Read reports. -/
def newReaderRead (pattern : String) (lines : List String) :
    Option (Entry × Option Err) :=
  match parsePattern pattern with
  | Except.error _ => none
  | Except.ok p =>
    let r := readGo p (fun _ => true) {} lines
    some (r.1, r.2.1)

/-- Compile a time sub-pattern and run it on one input from a fresh
accumulator, reporting the accumulator and the error. -/
def runTimePattern (pat input : String) : Option (When × Option Err) :=
  match parseTimePattern ((pat.length + 64) * 8) pat with
  | Except.error _ => none
  | Except.ok f =>
    let r := f {} (Cursor.ofString input)
    some (r.1, r.2.2)

/-! ### Helper lemmas on the calendar model -/

set_option maxHeartbeats 1000000 in
/-- Range facts for Hinnant's year-of-era formula: on a day-of-era in
[0, 146096] the computed year-of-era lies in [0, 399] and the day
falls between the start of that year and 365 days after it. -/
theorem doy_bounds (a : Int) (h0 : 0 ≤ a) (h1 : a ≤ 146096) :
    let c := (a - a / 1460 + a / 36524 - a / 146096) / 365
    0 ≤ c ∧ c ≤ 399 ∧
    365 * c + c / 4 - c / 100 ≤ a ∧ a ≤ 365 * c + c / 4 - c / 100 + 365 := by
  intro c
  by_cases ha : a = 146096
  · subst ha; norm_num
  have hi : a / 146096 = 0 := by omega
  obtain ⟨g, u, hgu, hg0, hg3, hu0, hu1⟩ :
      ∃ g u, a = 36524 * g + u ∧ 0 ≤ g ∧ g ≤ 3 ∧ 0 ≤ u ∧ u ≤ 36523 :=
    ⟨a / 36524, a % 36524, by omega, by omega, by omega, by omega, by omega⟩
  obtain ⟨p, v, hpv, hp0, hp3, hv0, hv1, hpcap⟩ :
      ∃ p v, u = 1461 * p + v ∧ 0 ≤ p ∧ p ≤ 24 ∧ 0 ≤ v ∧ v ≤ 1460 ∧ (p = 24 → v ≤ 1459) :=
    ⟨u / 1461, u % 1461, by omega, by omega, by omega, by omega, by omega, by omega⟩
  obtain ⟨t, k, htk, ht0, ht4, hk0, hk1, hcap⟩ :
      ∃ t k, v = 365 * t + k ∧ 0 ≤ t ∧ t ≤ 4 ∧ 0 ≤ k ∧ k ≤ 364 ∧ (t = 4 → k = 0) :=
    ⟨v / 365, v % 365, by omega, by omega, by omega, by omega, by omega, by omega⟩
  have hf : a / 1460 = 25 * g + p + (if 24 * g + p + 365 * t + k ≥ 1460 then 1 else 0) := by
    split <;> omega
  have hc : c = 100 * g + 4 * p + min t 3 := by
    simp only [c]
    rw [hf, hi]
    rcases Int.lt_or_le t 4 with h | h
    · split at hf <;> omega
    · omega
  have hmin : 0 ≤ min t 3 ∧ min t 3 ≤ 3 ∧ min t 3 ≤ t ∧ (t ≤ 3 → min t 3 = t) := by omega
  have hc4 : c / 4 = 25 * g + p := by rw [hc]; omega
  have hc100 : c / 100 = g := by rw [hc]; omega
  refine ⟨by omega, by omega, ?_, ?_⟩ <;> omega

/-- Rebuilding a day count from a year-of-era and a day-of-year in
range recovers the original day-of-era arithmetic. -/
theorem recon (era yoe doy : Int) (h1 : 0 ≤ yoe) (h2 : yoe ≤ 399)
    (h3 : 0 ≤ doy) (h4 : doy ≤ 365) :
    daysFromCivil
      (yoe + era * 400 +
        (if (5 * doy + 2) / 153 + (if (5 * doy + 2) / 153 < 10 then 3 else -9) ≤ 2 then 1 else 0))
      ((5 * doy + 2) / 153 + (if (5 * doy + 2) / 153 < 10 then 3 else -9))
      (doy - (153 * ((5 * doy + 2) / 153) + 2) / 5 + 1)
      = era * 146097 + (yoe * 365 + yoe / 4 - yoe / 100 + doy) - 719468 := by
  simp only [daysFromCivil]
  split_ifs <;> omega

set_option maxHeartbeats 1000000 in
/-- Converting a day count to a civil date and back is the identity. -/
theorem daysFromCivil_civilFromDays (z : Int) :
    daysFromCivil (civilFromDays z).1 (civilFromDays z).2.1 (civilFromDays z).2.2 = z := by
  have h0 : 0 ≤ z + 719468 - (z + 719468) / 146097 * 146097 := by omega
  have h1 : z + 719468 - (z + 719468) / 146097 * 146097 ≤ 146096 := by omega
  have hb := doy_bounds (z + 719468 - (z + 719468) / 146097 * 146097) h0 h1
  simp only [] at hb
  obtain ⟨hb1, hb2, hb3, hb4⟩ := hb
  simp only [civilFromDays]
  rw [recon ((z + 719468) / 146097)
      ((z + 719468 - (z + 719468) / 146097 * 146097 -
          (z + 719468 - (z + 719468) / 146097 * 146097) / 1460 +
          (z + 719468 - (z + 719468) / 146097 * 146097) / 36524 -
          (z + 719468 - (z + 719468) / 146097 * 146097) / 146096) / 365)
      _ hb1 hb2 (by omega) (by omega)]
  omega

set_option maxHeartbeats 1000000 in
/-- The month component produced by civilFromDays lies in 1..12. -/
theorem civilFromDays_mon_range (z : Int) :
    1 ≤ (civilFromDays z).2.1 ∧ (civilFromDays z).2.1 ≤ 12 := by
  have h0 : 0 ≤ z + 719468 - (z + 719468) / 146097 * 146097 := by omega
  have h1 : z + 719468 - (z + 719468) / 146097 * 146097 ≤ 146096 := by omega
  have hb := doy_bounds (z + 719468 - (z + 719468) / 146097 * 146097) h0 h1
  simp only [] at hb
  simp only [civilFromDays]
  split_ifs <;> omega

theorem norm_id (hi lo base : Int) (h0 : 0 ≤ lo) (h1 : lo < base) :
    norm hi lo base = (hi, lo) := by
  simp only [norm, Prod.mk.injEq]
  exact ⟨by rw [Int.ediv_eq_zero_of_lt h0 h1]; omega, Int.emod_eq_of_lt h0 h1⟩

/-- The day component of daysFromCivil is linear. -/
theorem daysFromCivil_day_add (y m d n : Int) :
    daysFromCivil y m (d + n) = daysFromCivil y m d + n := by
  simp only [daysFromCivil]
  split_ifs <;> ring

theorem goDate_nsec_range (year mon day hour minute sec nsec off : Int) :
    0 ≤ (goDate year mon day hour minute sec nsec off).nsec ∧
      (goDate year mon day hour minute sec nsec off).nsec < 1000000000 := by
  simp only [goDate, norm]
  omega

set_option maxHeartbeats 1000000 in
/-- Model of the fact that AddDate(0, 0, n) moves the wall-clock day
number by exactly n (for the normalized nanoseconds every goDate
result carries). -/
theorem addDays_days (t : GoTime) (n : Int)
    (hn0 : 0 ≤ t.nsec) (hn1 : t.nsec < 1000000000) :
    (t.addDays n).days = t.days + n := by
  have hm := civilFromDays_mon_range t.days
  have hrt := daysFromCivil_civilFromDays t.days
  obtain ⟨y, m, d, hciv⟩ : ∃ y m d, civilFromDays t.days = (y, m, d) :=
    ⟨(civilFromDays t.days).1, (civilFromDays t.days).2.1, (civilFromDays t.days).2.2, rfl⟩
  rw [hciv] at hm hrt
  simp only [] at hm hrt
  have hsecs0 : 0 ≤ t.clockSecs := Int.emod_nonneg _ (by norm_num)
  have hsecs1 : t.clockSecs < 86400 := Int.emod_lt_of_pos _ (by norm_num)
  simp only [GoTime.addDays, hciv, goDate]
  rw [norm_id y (m - 1) 12 (by omega) (by omega)]
  rw [norm_id _ t.nsec 1000000000 hn0 hn1]
  rw [norm_id _ (t.clockSecs % 60) 60 (by omega) (by omega)]
  rw [norm_id _ (t.clockSecs / 60 % 60) 60 (by omega) (by omega)]
  rw [norm_id _ (t.clockSecs / 3600) 24 (by omega) (by omega)]
  simp only []
  have hlin : daysFromCivil y (m - 1 + 1) (d + n) = daysFromCivil y m d + n := by
    rw [show m - 1 + 1 = m by ring, daysFromCivil_day_add]
  rw [hlin, hrt]
  simp only [GoTime.days, GoTime.clockSecs] at *
  omega

/-- Cursor restoration core of the alternation: when every branch
fails on the recorded cursor whatever the record state, and failing
branches leave the rune buffer unchanged, the whole loop falls
through with a nil error and the cursor back at the recorded
position. -/
theorem altGo_all_fail (pfs : List ParseFn) : ∀ (e : Entry) (s : List Char) (pos : Nat),
    (∀ pf ∈ pfs, ∀ e1 : Entry,
      ((pf e1 ⟨s, pos, none⟩).2.2).isSome ∧ ((pf e1 ⟨s, pos, none⟩).2.1).s = s) →
    ∃ e1, altGo pfs e ⟨s, pos, none⟩ pos = (e1, ⟨s, pos, none⟩, none) := by
  induction pfs with
  | nil => intro e s pos _; exact ⟨e, rfl⟩
  | cons pf rest ih =>
    intro e s pos hall
    obtain ⟨hfail, hpres⟩ := hall pf (List.mem_cons_self _ _) e
    rcases hp : pf e ⟨s, pos, none⟩ with ⟨e1, c1, er⟩
    rw [hp] at hfail hpres
    simp only [] at hfail hpres
    rcases er with _ | er1
    · simp at hfail
    · have hstep : altGo (pf :: rest) e ⟨s, pos, none⟩ pos =
          altGo rest e1 (c1.seekStart pos) pos := by
        simp [altGo, hp]
      have hseek : c1.seekStart pos = (⟨s, pos, none⟩ : Cursor) := by
        simp [Cursor.seekStart, hpres]
      rw [hstep, hseek]
      exact ih e1 s pos (fun q hq e2 => hall q (List.mem_cons_of_mem _ hq) e2)

/-! ### Specification lemmas for the primitive scanners -/

theorem drop_read : ∀ (s : List Char) (pos : Nat) (d : Char) (t : List Char),
    s.drop pos = d :: t →
    pos < s.length ∧ (∀ h : pos < s.length, s.get ⟨pos, h⟩ = d) ∧ s.drop (pos + 1) = t := by
  intro s
  induction s with
  | nil => intro pos d t h; simp at h
  | cons a s ih =>
    intro pos d t h
    cases pos with
    | zero =>
      simp only [List.drop_zero] at h
      cases h
      exact ⟨by simp, fun _ => rfl, by simp⟩
    | succ p =>
      have hp : s.drop p = d :: t := h
      obtain ⟨h1, h2, h3⟩ := ih p d t hp
      exact ⟨by simpa using Nat.succ_lt_succ h1, fun _ => h2 h1, h3⟩

theorem read_of_drop {s : List Char} {pos : Nat} {pr : Option Nat} {d : Char} {t : List Char}
    (h : s.drop pos = d :: t) :
    Cursor.read ⟨s, pos, pr⟩ = (d, ⟨s, pos + 1, some pos⟩, none) := by
  obtain ⟨hlt, hget, -⟩ := drop_read s pos d t h
  have hg : s[pos] = d := by simpa [List.get_eq_getElem] using hget hlt
  simp [Cursor.read, hlt, hg]

theorem peek_of_drop {s : List Char} {pos : Nat} {pr : Option Nat} {d : Char} {t : List Char}
    (h : s.drop pos = d :: t) :
    Cursor.peek ⟨s, pos, pr⟩ = (d, ⟨s, pos, none⟩) := by
  simp [Cursor.peek, read_of_drop h, Cursor.unread]

theorem remaining_of_drop {s : List Char} {pos : Nat} {u : List Char}
    (h : s.drop pos = u) : s.length - pos = u.length := by
  have := List.length_drop pos s
  rw [h] at this
  omega

/-- Characterization of the digit-accumulating fold with an arbitrary
initial accumulator. -/
theorem decimalVal_foldl : ∀ (ds : List Char) (acc : Int),
    List.foldl (fun a ch => a * 10 + ((ch.toNat : Int) - 48)) acc ds =
      acc * 10 ^ ds.length + decimalVal ds := by
  intro ds
  induction ds with
  | nil => intro acc; simp [decimalVal]
  | cons d rest ih =>
    intro acc
    simp only [decimalVal, List.foldl_cons, List.length_cons] at *
    rw [ih (acc * 10 + ((d.toNat : Int) - 48)), ih ((0 : Int) * 10 + ((d.toNat : Int) - 48))]
    ring

theorem isDigit_toNat {d : Char} (h : isDigit d = true) :
    48 ≤ d.toNat ∧ d.toNat ≤ 57 := by
  simp only [isDigit, Bool.and_eq_true, decide_eq_true_eq] at h
  exact ⟨h.1, h.2⟩

theorem char_eq_of_toNat {a b : Char} (h : a.toNat = b.toNat) : a = b :=
  Char.ext (UInt32.ext h)

theorem decimalVal_nonneg : ∀ {ds : List Char}, (∀ d ∈ ds, isDigit d = true) →
    0 ≤ decimalVal ds := by
  intro ds
  induction ds with
  | nil => intro _; simp [decimalVal]
  | cons d rest ih =>
    intro h
    have hd := isDigit_toNat (h d (List.mem_cons_self _ _))
    have hrest := ih (fun x hx => h x (List.mem_cons_of_mem _ hx))
    simp only [decimalVal, List.foldl_cons]
    rw [decimalVal_foldl]
    have : (0 : Int) ≤ 10 ^ rest.length := by positivity
    nlinarith [hd.1]

theorem decimalVal_dropZeros : ∀ (ds : List Char),
    decimalVal (ds.dropWhile (fun ch => ch = '0')) = decimalVal ds := by
  intro ds
  induction ds with
  | nil => rfl
  | cons d rest ih =>
    by_cases hd : d = '0'
    · subst hd
      rw [List.dropWhile_cons_of_pos (by simp)]
      rw [ih]
      simp [decimalVal]
    · rw [List.dropWhile_cons_of_neg (by simp [hd])]

theorem decimalVal_zero_iff : ∀ (ds : List Char), (∀ d ∈ ds, isDigit d = true) →
    (decimalVal ds = 0 ↔ ds.dropWhile (fun ch => ch = '0') = []) := by
  intro ds
  induction ds with
  | nil => intro _; simp [decimalVal]
  | cons d rest ih =>
    intro h
    have hd := isDigit_toNat (h d (List.mem_cons_self _ _))
    have hrestdig : ∀ x ∈ rest, isDigit x = true := fun x hx => h x (List.mem_cons_of_mem _ hx)
    have hrest := ih hrestdig
    have hnn := decimalVal_nonneg hrestdig
    have hsplit : decimalVal (d :: rest) =
        ((d.toNat : Int) - 48) * 10 ^ rest.length + decimalVal rest := by
      have hstep : decimalVal (d :: rest) =
          List.foldl (fun a ch => a * 10 + ((ch.toNat : Int) - 48))
            ((0 : Int) * 10 + ((d.toNat : Int) - 48)) rest := rfl
      rw [hstep, decimalVal_foldl]
      ring
    by_cases h0 : d = '0'
    · subst h0
      rw [List.dropWhile_cons_of_pos (by simp)]
      have hz : decimalVal ('0' :: rest) = decimalVal rest := by
        rw [hsplit]
        norm_num [show ('0' : Char).toNat = 48 from rfl]
      rw [hz]
      exact hrest
    · rw [List.dropWhile_cons_of_neg (by simp [h0])]
      have hd1 : d.toNat ≠ 48 := fun hc => h0 (char_eq_of_toNat (hc.trans (by decide)))
      have h49 : 49 ≤ d.toNat := by omega
      have hv1 : (1 : Int) ≤ (d.toNat : Int) - 48 := by omega
      have hpow : (1 : Int) ≤ 10 ^ rest.length := one_le_pow₀ (by norm_num)
      constructor
      · intro hv
        rw [hsplit] at hv
        nlinarith [hv1, hpow, hnn]
      · intro hc
        cases hc

theorem parseIntFinish_digits (v : Int) (buf : List Char) (c1 : Cursor)
    (hd : ∀ d ∈ buf, isDigit d = true) (hb : decimalVal buf ≤ 9223372036854775807) :
    parseIntFinish v buf c1 = (if decimalVal buf = 0 then v else decimalVal buf, c1, none) := by
  unfold parseIntFinish
  by_cases hz : decimalVal buf = 0
  · have hnil : buf.dropWhile (fun ch => ch = '0') = [] := (decimalVal_zero_iff buf hd).mp hz
    simp [hnil, hz]
  · have hne : ¬ buf.dropWhile (fun ch => ch = '0') = [] :=
      fun hc => hz ((decimalVal_zero_iff buf hd).mpr hc)
    have hdp : ∀ d ∈ buf.dropWhile (fun ch => ch = '0'), isDigit d = true :=
      fun d hdm => hd d ((List.dropWhile_sublist _).mem hdm)
    have hval := decimalVal_dropZeros buf
    have hall : (buf.dropWhile (fun ch => ch = '0')).all isDigit = true := by
      rw [List.all_eq_true]
      exact hdp
    simp only [List.isEmpty_iff, hne, if_false, strconvParseInt, hall, if_true, hval, hz]
    rw [if_pos (by omega)]

theorem parseIntGo_two (accept : Char → Bool) {s : List Char} {pos : Nat} {pr : Option Nat}
    {d1 d2 : Char} {t : List Char} {fuel : Nat}
    (h : s.drop pos = d1 :: d2 :: t) (ha1 : accept d1 = true) (ha2 : accept d2 = true)
    (hf : 3 ≤ fuel) :
    parseIntGo accept 2 fuel 0 ⟨s, pos, pr⟩ [] =
      ([d1, d2], ⟨s, pos + 1 + 1, some (pos + 1)⟩, none) := by
  obtain ⟨f, rfl⟩ : ∃ f, fuel = f + 1 + 1 + 1 := ⟨fuel - 3, by omega⟩
  obtain ⟨-, -, h1⟩ := drop_read s pos d1 (d2 :: t) h
  simp [parseIntGo, read_of_drop h, read_of_drop h1, ha1, ha2]

theorem parseInt_two {v : Int} {s : List Char} {pos : Nat} {pr : Option Nat}
    {d1 d2 : Char} {t : List Char}
    (h : s.drop pos = d1 :: d2 :: t) (h1 : isDigit d1 = true) (h2 : isDigit d2 = true) :
    parseInt v 2 ⟨s, pos, pr⟩ isDigit =
      (if decimalVal [d1, d2] = 0 then v else decimalVal [d1, d2],
        ⟨s, pos + 1 + 1, some (pos + 1)⟩, none) := by
  have hrem : (⟨s, pos, pr⟩ : Cursor).remaining = t.length + 2 := by
    simpa [Cursor.remaining] using remaining_of_drop h
  have hb : decimalVal [d1, d2] ≤ 9223372036854775807 := by
    obtain ⟨ha, hb'⟩ := isDigit_toNat h1
    obtain ⟨hc, hd'⟩ := isDigit_toNat h2
    simp only [decimalVal, List.foldl_cons, List.foldl_nil]
    omega
  unfold parseInt
  rw [hrem, parseIntGo_two isDigit h h1 h2 (by omega)]
  refine parseIntFinish_digits v [d1, d2] _ ?_ hb
  intro d hd
  simp only [List.mem_cons, List.not_mem_nil, or_false] at hd
  rcases hd with rfl | rfl <;> assumption

theorem parseIntGo_var (accept : Char → Bool) :
    ∀ (ds : List Char) (s : List Char) (pos : Nat) (pr : Option Nat) (x : Char)
      (t : List Char) (fuel : Nat) (buf : List Char) (i : Nat),
    s.drop pos = ds ++ x :: t → (∀ d ∈ ds, accept d = true) → accept x = false →
    ds.length + 1 ≤ fuel →
    parseIntGo accept 0 fuel i ⟨s, pos, pr⟩ buf =
      (buf ++ ds, ⟨s, pos + ds.length, none⟩, none) := by
  intro ds
  induction ds with
  | nil =>
    intro s pos pr x t fuel buf i h hds hx hf
    obtain ⟨f, rfl⟩ : ∃ f, fuel = f + 1 := ⟨fuel - 1, by omega⟩
    simp only [List.nil_append] at h
    simp [parseIntGo, read_of_drop h, hx, Cursor.unread]
  | cons d ds ih =>
    intro s pos pr x t fuel buf i h hds hx hf
    obtain ⟨f, rfl⟩ : ∃ f, fuel = f + 1 := ⟨fuel - 1, by omega⟩
    simp only [List.cons_append] at h
    obtain ⟨-, -, h1⟩ := drop_read s pos d (ds ++ x :: t) h
    have had : accept d = true := hds d (List.mem_cons_self _ _)
    have step := ih s (pos + 1) (some pos) x t f (buf ++ [d]) (i + 1) h1
      (fun e he => hds e (List.mem_cons_of_mem _ he)) hx (by simpa using hf)
    simp only [List.length_cons]
    simp only [parseIntGo, read_of_drop h, had, if_true]
    rw [if_neg (by simp)]
    rw [step]
    simp only [Prod.mk.injEq, Cursor.mk.injEq, List.append_assoc, List.singleton_append,
      and_true, true_and, eq_self_iff_true]
    omega

theorem parseInt_var {v : Int} {s : List Char} {pos : Nat} {pr : Option Nat}
    {ds : List Char} {x : Char} {t : List Char}
    (h : s.drop pos = ds ++ x :: t) (hds : ∀ d ∈ ds, isDigit d = true)
    (hx : isDigit x = false) (hb : decimalVal ds ≤ 9223372036854775807) :
    parseInt v 0 ⟨s, pos, pr⟩ isDigit =
      (if decimalVal ds = 0 then v else decimalVal ds, ⟨s, pos + ds.length, none⟩, none) := by
  have hrem : (⟨s, pos, pr⟩ : Cursor).remaining = ds.length + t.length + 1 := by
    have := remaining_of_drop h
    simp only [Cursor.remaining]
    rw [this]
    simp
    omega
  unfold parseInt
  rw [hrem, parseIntGo_var isDigit ds s pos pr x t _ [] 0 h hds hx (by omega)]
  simpa using parseIntFinish_digits v ds _ hds hb

theorem parseStringGo_three (accept : Char → Bool) {s : List Char} {pos : Nat}
    {pr : Option Nat} {c1 c2 c3 : Char} {t : List Char} {fuel : Nat}
    (h : s.drop pos = c1 :: c2 :: c3 :: t)
    (ha1 : accept c1 = true) (ha2 : accept c2 = true) (ha3 : accept c3 = true)
    (hf : 4 ≤ fuel) :
    parseStringGo accept 3 fuel 0 ⟨s, pos, pr⟩ [] =
      ([c1, c2, c3], ⟨s, pos + 1 + 1 + 1, some (pos + 1 + 1)⟩) := by
  obtain ⟨f, rfl⟩ : ∃ f, fuel = f + 1 + 1 + 1 + 1 := ⟨fuel - 4, by omega⟩
  obtain ⟨-, -, h1⟩ := drop_read s pos c1 (c2 :: c3 :: t) h
  obtain ⟨-, -, h2⟩ := drop_read s (pos + 1) c2 (c3 :: t) h1
  simp [parseStringGo, read_of_drop h, read_of_drop h1, read_of_drop h2, ha1, ha2, ha3]

theorem parseString_three {s : List Char} {pos : Nat} {pr : Option Nat}
    {c1 c2 c3 : Char} {t : List Char} (accept : Char → Bool)
    (h : s.drop pos = c1 :: c2 :: c3 :: t)
    (ha1 : accept c1 = true) (ha2 : accept c2 = true) (ha3 : accept c3 = true) :
    parseString ⟨s, pos, pr⟩ 3 accept =
      (String.mk [c1, c2, c3], ⟨s, pos + 1 + 1, none⟩, none) := by
  have hrem : (⟨s, pos, pr⟩ : Cursor).remaining = t.length + 3 := by
    simpa [Cursor.remaining] using remaining_of_drop h
  unfold parseString
  rw [hrem, parseStringGo_three accept h ha1 ha2 ha3 (by omega)]
  simp [Cursor.unread]

/-! ### Claim C1 -/

/-- Claim C1, as stated, is false: with the default %t argument
(rfcPattern, which demands a literal T separator and a zone) the
sample line mismatches, so Reader.Read skips it and reports
exhaustion with the zero record; the returned record does not carry
Process sshd. -/
theorem C1_counterexample :
    newReaderRead "%t %n[%p]: %m" ["2023-05-01 10:22:31 sshd[1234]: Accepted password"] =
      some ({}, some Err.eof) ∧ ({} : Entry).Process ≠ "sshd" :=
  ⟨by rfl, by decide⟩

/-- Claim C1 amended: the default %t argument rejects the sample line
(previous theorem); with the explicit time argument
%y-%m-%d %H:%M:%S matching the line's layout, Reader.Read returns
the record with Process sshd, Pid 1234, Message Accepted password and
When the instant 2023-05-01T10:22:31 UTC. -/
theorem C1_theorem :
    newReaderRead "%t(%y-%m-%d %H:%M:%S) %n[%p]: %m"
        ["2023-05-01 10:22:31 sshd[1234]: Accepted password"] =
      some ({ Line := "2023-05-01 10:22:31 sshd[1234]: Accepted password",
              Pid := 1234, Process := "sshd", Message := "Accepted password",
              When := ⟨1682936551, 0, 0⟩ }, none) ∧
    goDate 2023 5 1 10 22 31 0 0 = ⟨1682936551, 0, 0⟩ :=
  ⟨by rfl, by rfl⟩

/-! ### Claim C2 -/

/-- Claim C2, as stated, is false: a line with non-digit text where
the variable-width %p specifier expects digits is returned as a
record, because parseInt with width 0 succeeds after consuming zero
digits; Read yields the record (with Pid left at zero) and no
error. -/
theorem C2_counterexample :
    newReaderRead "%p" ["abc"] = some ({ Line := "abc" }, none) ∧
      ({ Line := "abc" } : Entry).Pid = 0 :=
  ⟨by rfl, by rfl⟩

/-- Claim C2 amended: a line on which the extractor chain signals the
structural mismatch ErrPattern is never returned as a record and
never terminates the stream; Read silently resumes with the next
line (threading the same record-in-progress).  A non-digit where a
variable-width integer specifier expects digits is not a mismatch
(the specifier succeeds consuming nothing), and a line that ends
where an integer specifier expects input surfaces io.EOF, which
Read treats as a terminal error rather than a skip. -/
theorem C2_theorem (p : ParseFn) (keep : Entry → Bool) (e : Entry) (line : String)
    (rest : List String) (hne : line.length ≠ 0)
    (hmis : (p e (Cursor.ofString line)).2.2 = some Err.pattern) :
    readGo p keep e (line :: rest) = readGo p keep (p e (Cursor.ofString line)).1 rest := by
  rcases hp : p e (Cursor.ofString line) with ⟨e1, c1, er⟩
  rw [hp] at hmis
  simp only [] at hmis
  subst hmis
  simp [readGo, hne, hp]

theorem C2_witness :
    ("y".length ≠ 0) ∧
    (parseLiteral "x" {} (Cursor.ofString "y")).2.2 = some Err.pattern ∧
    readGo (parseLiteral "x") (fun _ => true) {} ["y"] =
      readGo (parseLiteral "x") (fun _ => true) (parseLiteral "x" {} (Cursor.ofString "y")).1 [] := by
  refine ⟨by decide, by decide, ?_⟩
  exact C2_theorem (parseLiteral "x") (fun _ => true) {} "y" [] (by decide) (by decide)

/-! ### Claim C3 -/

/-- Claim C3, as stated, is false: when every alternative of the
compiled alternation @(a|b) mismatches on the input line c, the
alternation returns success rather than a mismatch signal (the
rewinding Seek overwrites the error with nil), so the whole pattern
succeeds and Read returns the line as a record with no error. -/
theorem C3_counterexample :
    newReaderRead "@(a|b)" ["c"] = some ({ Line := "c" }, none) :=
  by rfl

/-- Claim C3 amended: when every alternative mismatches (at the
recorded position, whatever the record state, with the rune buffer
preserved on failure), the compiled alternation returns success
(a nil error) — not a mismatch — with the cursor restored to the
position where the alternation began. -/
theorem C3_theorem (pfs : List ParseFn) (e : Entry) (c : Cursor) (_hne : pfs ≠ [])
    (hall : ∀ pf ∈ pfs, ∀ e1 : Entry,
      ((pf e1 ⟨c.s, c.pos, none⟩).2.2).isSome ∧ ((pf e1 ⟨c.s, c.pos, none⟩).2.1).s = c.s) :
    ∃ e1, parseAltRun pfs e c = (e1, ⟨c.s, c.pos, none⟩, none) := by
  have h := altGo_all_fail pfs e c.s c.pos hall
  exact h

theorem C3_witness :
    (∀ pf ∈ ([parseLiteral "a", parseLiteral "b"] : List ParseFn), ∀ e1 : Entry,
      ((pf e1 ⟨(Cursor.ofString "c").s, (Cursor.ofString "c").pos, none⟩).2.2).isSome ∧
      ((pf e1 ⟨(Cursor.ofString "c").s, (Cursor.ofString "c").pos, none⟩).2.1).s =
        (Cursor.ofString "c").s) ∧
    ∃ e1, parseAltRun [parseLiteral "a", parseLiteral "b"] {} (Cursor.ofString "c") =
      (e1, ⟨(Cursor.ofString "c").s, (Cursor.ofString "c").pos, none⟩, none) := by
  have hall : ∀ pf ∈ ([parseLiteral "a", parseLiteral "b"] : List ParseFn), ∀ e1 : Entry,
      ((pf e1 ⟨(Cursor.ofString "c").s, (Cursor.ofString "c").pos, none⟩).2.2).isSome ∧
      ((pf e1 ⟨(Cursor.ofString "c").s, (Cursor.ofString "c").pos, none⟩).2.1).s =
        (Cursor.ofString "c").s := by
    intro pf hpf e1
    simp only [List.mem_cons, List.mem_singleton] at hpf
    rcases hpf with rfl | rfl | h
    · exact ⟨rfl, rfl⟩
    · exact ⟨rfl, rfl⟩
    · cases h
  exact ⟨hall, C3_theorem _ {} _ (by simp) hall⟩

/-! ### Claim C4 -/

/-- Claim C4, as stated, is false: Reader.Read declares one record
before its loop and reuses it across line attempts, so the word foo
appended by %w while processing the first line (later discarded for
mismatch against the literal space) survives into the record
returned for the second line. -/
theorem C4_counterexample :
    newReaderRead "%w %m" ["foo", "a b"] =
      some ({ Line := "a b", Message := "b", Words := ["foo", "a"] }, none) ∧
    "foo" ∈ (["foo", "a"] : List String) :=
  ⟨by rfl, by decide⟩

/-- Claim C4 amended: the record-in-progress is reused, not replaced,
across line attempts within a single Read call; in particular when a
structurally valid line is rejected by the filter, the record built
for it — including every field its extractors wrote — becomes the
accumulator with which the next line is attempted. -/
theorem C4_theorem (p : ParseFn) (keep : Entry → Bool) (e : Entry) (line : String)
    (rest : List String) (hne : line.length ≠ 0)
    (hok : (p e (Cursor.ofString line)).2.2 = none)
    (hrej : keep (p e (Cursor.ofString line)).1 = false) :
    readGo p keep e (line :: rest) = readGo p keep (p e (Cursor.ofString line)).1 rest := by
  rcases hp : p e (Cursor.ofString line) with ⟨e1, c1, er⟩
  rw [hp] at hok hrej
  simp only [] at hok hrej
  subst hok
  simp [readGo, hne, hp, hrej]

theorem C4_witness :
    ("foo".length ≠ 0) ∧
    (parseWord "" {} (Cursor.ofString "foo")).2.2 = none ∧
    ((fun _ => false) : Entry → Bool) (parseWord "" {} (Cursor.ofString "foo")).1 = false ∧
    (parseWord "" {} (Cursor.ofString "foo")).1.Words = ["foo"] ∧
    readGo (parseWord "") (fun _ => false) {} ["foo"] =
      readGo (parseWord "") (fun _ => false) (parseWord "" {} (Cursor.ofString "foo")).1 [] := by
  refine ⟨by decide, by decide, by rfl, by decide, ?_⟩
  exact C4_theorem (parseWord "") (fun _ => false) {} "foo" [] (by decide) (by decide) (by rfl)

/-! ### Claim C5 -/

/-- Claim C5 confirmed: alternatives are attempted in declaration
order, and every alternative starts from a cursor whose position is
exactly the one recorded when the alternation began (prevRune
cleared): the first alternative's result is the alternation's result
when it succeeds, and when it fails (leaving the rune buffer intact)
the remaining alternatives run as an alternation from the same
recorded position, however many runes the failed branch consumed. -/
theorem C5_theorem (pf : ParseFn) (rest : List ParseFn) (e : Entry) (c : Cursor) :
    ((pf e ⟨c.s, c.pos, none⟩).2.2 = none →
      parseAltRun (pf :: rest) e c = pf e ⟨c.s, c.pos, none⟩) ∧
    (((pf e ⟨c.s, c.pos, none⟩).2.2).isSome →
      ((pf e ⟨c.s, c.pos, none⟩).2.1).s = c.s →
      parseAltRun (pf :: rest) e c =
        parseAltRun rest (pf e ⟨c.s, c.pos, none⟩).1 ⟨c.s, c.pos, none⟩) := by
  rcases hp : pf e ⟨c.s, c.pos, none⟩ with ⟨e1, c1, er⟩
  constructor
  · intro h
    simp only [] at h
    subst h
    simp [parseAltRun, altGo, hp]
  · intro hsome hpres
    simp only [] at hsome hpres
    rcases er with _ | er1
    · simp at hsome
    · have hseek : c1.seekStart c.pos = (⟨c.s, c.pos, none⟩ : Cursor) := by
        simp [Cursor.seekStart, hpres]
      simp [parseAltRun, altGo, hp, hseek]

theorem C5_witness :
    ((parseLiteral "ax" {} ⟨(Cursor.ofString "ab").s, (Cursor.ofString "ab").pos, none⟩).2.2).isSome ∧
    ((parseLiteral "ax" {} ⟨(Cursor.ofString "ab").s, (Cursor.ofString "ab").pos, none⟩).2.1).s =
      (Cursor.ofString "ab").s ∧
    parseAltRun [parseLiteral "ax", parseLiteral "ab"] {} (Cursor.ofString "ab") =
      parseAltRun [parseLiteral "ab"]
        (parseLiteral "ax" {} ⟨(Cursor.ofString "ab").s, (Cursor.ofString "ab").pos, none⟩).1
        ⟨(Cursor.ofString "ab").s, (Cursor.ofString "ab").pos, none⟩ ∧
    parseAltRun [parseLiteral "ax", parseLiteral "ab"] {} (Cursor.ofString "ab") =
      ({}, ⟨(Cursor.ofString "ab").s, 2, some 1⟩, none) := by
  refine ⟨by decide, by decide, ?_, by decide⟩
  exact (C5_theorem (parseLiteral "ax") [parseLiteral "ab"] {} (Cursor.ofString "ab")).2
    (by decide) (by decide)

/-! ### Claim C6 -/

/-- Claim C6, as stated, is false on its scenario: the time pattern
%s run against exactly 1690000000 hits end of input inside parseInt
(which reads one rune past the digits), surfaces io.EOF, and leaves
the Unix component unset, so no timestamp is produced. -/
theorem C6_counterexample :
    runTimePattern "%s" "1690000000" = some ({}, some Err.eof) ∧
    ({} : When).Unix = 0 :=
  ⟨by rfl, by rfl⟩

/-- Claim C6 amended: a populated (non-zero) Unix component takes
absolute precedence — when.Time returns the instant time.Unix(unix, 0)
ignoring every calendar component; otherwise unset year, month and
day each default to 1 before the calendar date is built; and %s
against 1690000000 followed by a non-digit (here a blank) captures
the Unix component, whose resolved instant is exactly 1690000000
seconds after the epoch.  Against exactly 1690000000 the scanner
fails with io.EOF (previous theorem). -/
theorem C6_theorem :
    (∀ w : When, w.Unix ≠ 0 → w.time = { unix := w.Unix, nsec := 0, off := 0 }) ∧
    (∀ w : When, w.Unix = 0 → w.time = When.time
        { w with Year := if w.Year = 0 then 1 else w.Year,
                 Mon := if w.Mon = 0 then 1 else w.Mon,
                 Day := if w.Day = 0 then 1 else w.Day }) ∧
    runTimePattern "%s" "1690000000 " = some ({ Unix := 1690000000 }, none) ∧
    (When.time { Unix := 1690000000 }).unix = 1690000000 := by
  refine ⟨?_, ?_, by rfl, by rfl⟩
  · intro w h
    simp [When.time, h]
  · intro w h
    simp only [When.time, When.baseTime, h]
    by_cases hY : w.Year = 0 <;> by_cases hM : w.Mon = 0 <;> by_cases hD : w.Day = 0 <;>
      simp [hY, hM, hD]

/-! ### Claim C7 -/

/-- Claim C7, as stated, is false: parseZone applies the sign only to
the hour term, so -05:30 yields -5*3600 + 30*60 = -16200 seconds, not
-(5*3600 + 30*60) = -19800. -/
theorem C7_counterexample :
    (parseZone {} (Cursor.ofString "-05:30")).1.Zone = -16200 ∧
    (parseZone {} (Cursor.ofString "-05:30")).2.2 = none ∧
    ((-16200 : Int)) ≠ -(5 * 3600 + 30 * 60) :=
  ⟨by rfl, by rfl, by decide⟩

/-- Claim C7 amended: for a zone of the form sign, two-digit hour HH,
optional colon, two-digit minute MM (captured into a fresh
accumulator), the offset is the sign applied to HH*3600 only, plus
MM*60 never sign-adjusted, where all-zero minute digits reuse the
parsed hour value; Z yields offset 0. -/
theorem C7_theorem :
    (∀ (w : When) (rest : List Char), w.Zone = 0 →
      (parseZone w ⟨'Z' :: rest, 0, none⟩).1.Zone = 0 ∧
      (parseZone w ⟨'Z' :: rest, 0, none⟩).2.2 = none) ∧
    (∀ (w : When) (sign : Char) (colonPart : List Char) (d1 d2 d3 d4 : Char)
        (rest : List Char),
      sign = '+' ∨ sign = '-' → colonPart = [] ∨ colonPart = [':'] →
      w.Zone = 0 → isDigit d1 = true → isDigit d2 = true → isDigit d3 = true →
      isDigit d4 = true →
      (parseZone w ⟨sign :: d1 :: d2 :: (colonPart ++ d3 :: d4 :: rest), 0, none⟩).1.Zone =
        (if sign = '-' then -1 else 1) * (decimalVal [d1, d2] * 3600) +
          (if decimalVal [d3, d4] = 0 then decimalVal [d1, d2] else decimalVal [d3, d4]) * 60 ∧
      (parseZone w ⟨sign :: d1 :: d2 :: (colonPart ++ d3 :: d4 :: rest), 0, none⟩).2.2 =
        none) := by
  constructor
  · intro w rest hz
    constructor <;>
      simp [parseZone, read_of_drop (show ('Z' :: rest).drop 0 = 'Z' :: rest from rfl), hz]
  · intro w sign colonPart d1 d2 d3 d4 rest hsign hcp hz h1 h2 h3 h4
    have hvEq : (if decimalVal [d1, d2] = 0 then (0 : Int) else decimalVal [d1, d2]) =
        decimalVal [d1, d2] := by split <;> omega
    have hd3c : (d3 = ':') = False := by
      simp only [eq_iff_iff, iff_false]
      intro hc
      rw [hc] at h3
      exact absurd h3 (by decide)
    rcases hsign with rfl | rfl <;> rcases hcp with rfl | rfl
    · -- '+', no colon
      simp only [List.nil_append]
      simp only [parseZone,
        read_of_drop (show ('+' :: d1 :: d2 :: d3 :: d4 :: rest).drop 0 =
          '+' :: (d1 :: d2 :: d3 :: d4 :: rest) from rfl),
        eq_false (show ¬ ('+' : Char) = 'Z' by decide),
        eq_true (show ('+' : Char) = '+' ∨ ('+' : Char) = '-' by decide),
        eq_false (show ¬ ('+' : Char) = '-' by decide), if_true, if_false,
        parseInt_two (show ('+' :: d1 :: d2 :: d3 :: d4 :: rest).drop (0 + 1) =
          d1 :: d2 :: (d3 :: d4 :: rest) from rfl) h1 h2, hvEq,
        peek_of_drop (show ('+' :: d1 :: d2 :: d3 :: d4 :: rest).drop (0 + 1 + 1 + 1) =
          d3 :: (d4 :: rest) from rfl), hd3c, h3,
        parseInt_two (show ('+' :: d1 :: d2 :: d3 :: d4 :: rest).drop (0 + 1 + 1 + 1) =
          d3 :: d4 :: rest from rfl) h3 h4, hz, or_false, or_true]
      exact ⟨by ring, trivial⟩
    · -- '+', colon
      simp only [List.singleton_append]
      simp only [parseZone,
        read_of_drop (show ('+' :: d1 :: d2 :: ':' :: d3 :: d4 :: rest).drop 0 =
          '+' :: (d1 :: d2 :: ':' :: d3 :: d4 :: rest) from rfl),
        eq_false (show ¬ ('+' : Char) = 'Z' by decide),
        eq_true (show ('+' : Char) = '+' ∨ ('+' : Char) = '-' by decide),
        eq_false (show ¬ ('+' : Char) = '-' by decide), if_true, if_false,
        parseInt_two (show ('+' :: d1 :: d2 :: ':' :: d3 :: d4 :: rest).drop (0 + 1) =
          d1 :: d2 :: (':' :: d3 :: d4 :: rest) from rfl) h1 h2, hvEq,
        peek_of_drop (show ('+' :: d1 :: d2 :: ':' :: d3 :: d4 :: rest).drop (0 + 1 + 1 + 1) =
          ':' :: (d3 :: d4 :: rest) from rfl),
        eq_true (show (':' : Char) = ':' by decide),
        read_of_drop (show ('+' :: d1 :: d2 :: ':' :: d3 :: d4 :: rest).drop (0 + 1 + 1 + 1) =
          ':' :: (d3 :: d4 :: rest) from rfl),
        peek_of_drop (show ('+' :: d1 :: d2 :: ':' :: d3 :: d4 :: rest).drop (0 + 1 + 1 + 1 + 1) =
          d3 :: (d4 :: rest) from rfl), h3,
        parseInt_two (show ('+' :: d1 :: d2 :: ':' :: d3 :: d4 :: rest).drop (0 + 1 + 1 + 1 + 1) =
          d3 :: d4 :: rest from rfl) h3 h4, hz, or_false, or_true]
      exact ⟨by ring, trivial⟩
    · -- '-', no colon
      simp only [List.nil_append]
      simp only [parseZone,
        read_of_drop (show ('-' :: d1 :: d2 :: d3 :: d4 :: rest).drop 0 =
          '-' :: (d1 :: d2 :: d3 :: d4 :: rest) from rfl),
        eq_false (show ¬ ('-' : Char) = 'Z' by decide),
        eq_true (show ('-' : Char) = '+' ∨ ('-' : Char) = '-' by decide),
        eq_true (show ('-' : Char) = '-' by decide), if_true, if_false,
        parseInt_two (show ('-' :: d1 :: d2 :: d3 :: d4 :: rest).drop (0 + 1) =
          d1 :: d2 :: (d3 :: d4 :: rest) from rfl) h1 h2, hvEq,
        peek_of_drop (show ('-' :: d1 :: d2 :: d3 :: d4 :: rest).drop (0 + 1 + 1 + 1) =
          d3 :: (d4 :: rest) from rfl), hd3c, h3,
        parseInt_two (show ('-' :: d1 :: d2 :: d3 :: d4 :: rest).drop (0 + 1 + 1 + 1) =
          d3 :: d4 :: rest from rfl) h3 h4, hz, or_false, or_true]
      exact ⟨by ring, trivial⟩
    · -- '-', colon
      simp only [List.singleton_append]
      simp only [parseZone,
        read_of_drop (show ('-' :: d1 :: d2 :: ':' :: d3 :: d4 :: rest).drop 0 =
          '-' :: (d1 :: d2 :: ':' :: d3 :: d4 :: rest) from rfl),
        eq_false (show ¬ ('-' : Char) = 'Z' by decide),
        eq_true (show ('-' : Char) = '+' ∨ ('-' : Char) = '-' by decide),
        eq_true (show ('-' : Char) = '-' by decide), if_true, if_false,
        parseInt_two (show ('-' :: d1 :: d2 :: ':' :: d3 :: d4 :: rest).drop (0 + 1) =
          d1 :: d2 :: (':' :: d3 :: d4 :: rest) from rfl) h1 h2, hvEq,
        peek_of_drop (show ('-' :: d1 :: d2 :: ':' :: d3 :: d4 :: rest).drop (0 + 1 + 1 + 1) =
          ':' :: (d3 :: d4 :: rest) from rfl),
        eq_true (show (':' : Char) = ':' by decide),
        read_of_drop (show ('-' :: d1 :: d2 :: ':' :: d3 :: d4 :: rest).drop (0 + 1 + 1 + 1) =
          ':' :: (d3 :: d4 :: rest) from rfl),
        peek_of_drop (show ('-' :: d1 :: d2 :: ':' :: d3 :: d4 :: rest).drop (0 + 1 + 1 + 1 + 1) =
          d3 :: (d4 :: rest) from rfl), h3,
        parseInt_two (show ('-' :: d1 :: d2 :: ':' :: d3 :: d4 :: rest).drop (0 + 1 + 1 + 1 + 1) =
          d3 :: d4 :: rest from rfl) h3 h4, hz, or_false, or_true]
      exact ⟨by ring, trivial⟩

theorem C7_witness :
    (('-' : Char) = '+' ∨ ('-' : Char) = '-') ∧
    (([':'] : List Char) = [] ∨ ([':'] : List Char) = [':']) ∧
    ({} : When).Zone = 0 ∧ isDigit '0' = true ∧ isDigit '5' = true ∧
    isDigit '3' = true ∧ isDigit '0' = true ∧
    (parseZone {} ⟨'-' :: '0' :: '5' :: (([':'] : List Char) ++ '3' :: '0' :: []), 0,
        none⟩).1.Zone =
      (if ('-' : Char) = '-' then -1 else 1) * (decimalVal ['0', '5'] * 3600) +
        (if decimalVal ['3', '0'] = 0 then decimalVal ['0', '5'] else decimalVal ['3', '0']) * 60 := by
  refine ⟨by decide, by decide, rfl, by decide, by decide, by decide, by decide, ?_⟩
  exact (C7_theorem.2 {} '-' [':'] '0' '5' '3' '0' [] (by decide) (by decide) rfl
    (by decide) (by decide) (by decide) (by decide)).1

/-! ### Claim C10 -/

/-- Claim C10 confirmed: an accepted three-letter month name
(case-insensitively) stores one plus its index in the alphabetically
sorted abbreviation table, not its calendar number. -/
theorem C10_theorem (w : When) (c1 c2 c3 : Char) (t : List Char) (i : Nat) (hi : i < 12)
    (h1 : isLetter c1 = true) (h2 : isLetter c2 = true) (h3 : isLetter c3 = true)
    (hm : months.get ⟨i, hi⟩ = String.mk [toLowerChar c1, toLowerChar c2, toLowerChar c3]) :
    (parseMonthStr w ⟨c1 :: c2 :: c3 :: t, 0, none⟩).1.Mon = (i : Int) + 1 ∧
    (parseMonthStr w ⟨c1 :: c2 :: c3 :: t, 0, none⟩).2.2 = none := by
  have hps := @parseString_three (c1 :: c2 :: c3 :: t) 0 none c1 c2 c3 t isLetter rfl h1 h2 h3
  have hlow : toLowerStr (String.mk [c1, c2, c3]) =
      String.mk [toLowerChar c1, toLowerChar c2, toLowerChar c3] := rfl
  simp only [parseMonthStr, hps, hlow]
  rw [← hm]
  have hs : searchStrings months (months.get ⟨i, hi⟩) = i := by
    interval_cases i <;> rfl
  have hc : searchStrings months (months.get ⟨i, hi⟩) < months.length ∧
      months.getD (searchStrings months (months.get ⟨i, hi⟩)) "" = months.get ⟨i, hi⟩ := by
    rw [hs]
    refine ⟨by simpa [months] using hi, ?_⟩
    interval_cases i <;> rfl
  rw [if_pos hc]
  exact ⟨by simp only [hs], rfl⟩

theorem C10_witness :
    (isLetter 'J' = true ∧ isLetter 'a' = true ∧ isLetter 'n' = true ∧
      months.get ⟨4, by norm_num [months]⟩ =
        String.mk [toLowerChar 'J', toLowerChar 'a', toLowerChar 'n']) ∧
    (parseMonthStr {} ⟨'J' :: 'a' :: 'n' :: [' '], 0, none⟩).1.Mon = (4 : Int) + 1 := by
  refine ⟨⟨by decide, by decide, by decide, by decide⟩, ?_⟩
  exact (C10_theorem {} 'J' 'a' 'n' [' '] 4 (by norm_num [months]) (by decide) (by decide)
    (by decide) (by decide)).1

theorem C6_witness :
    ((5 : Int) ≠ 0 ∧ When.time { Unix := 5 } = { unix := 5, nsec := 0, off := 0 }) ∧
    (({} : When).Unix = 0 ∧
      When.time {} = When.time { Year := 1, Mon := 1, Day := 1 }) := by
  refine ⟨⟨by decide, C6_theorem.1 _ (by decide)⟩, ⟨rfl, ?_⟩⟩
  exact C6_theorem.2.1 {} rfl

/-! ### Claim C8 -/

/-- Claim C8 corrected: with a positive captured day-of-year the
adjustment overshoots by one: YearDay 100 resolves to day-of-year
101, not 100. -/
theorem C8_counterexample :
    (When.time { YearDay := 100 }).yearDay = 101 ∧ ((101 : Int) ≠ 100) := by
  constructor
  · rfl
  · decide

/-- Claim C8 amended: when the Unix component is unset and the
captured day-of-year d is positive, when.Time lands exactly d days
after January 1 of the base calendar year — day-of-year d + 1 within
that year, one past the captured value — because the adjustment adds
d - t.YearDay() + 1 days instead of d - t.YearDay(). -/
theorem C8_theorem (w : When) (hu : w.Unix = 0) (hd : 0 < w.YearDay) :
    (w.time).days = daysFromCivil (civilFromDays w.baseTime.days).1 1 1 + w.YearDay := by
  have hnsec := goDate_nsec_range (if w.Year = 0 then w.Year + 1 else w.Year)
    (if w.Mon = 0 then w.Mon + 1 else w.Mon)
    (if w.Day = 0 then w.Day + 1 else w.Day) w.Hour w.Min w.Sec w.Frac w.Zone
  have hadd := addDays_days w.baseTime (w.YearDay - w.baseTime.yearDay + 1) hnsec.1 hnsec.2
  simp only [When.time]
  rw [if_neg (by simp [hu]), if_pos hd, hadd]
  simp only [GoTime.yearDay]
  ring

theorem C8_witness :
    (({ YearDay := 5 } : When).Unix = 0 ∧ (0 : Int) < ({ YearDay := 5 } : When).YearDay) ∧
    (When.time { YearDay := 5 }).days =
      daysFromCivil (civilFromDays (When.baseTime { YearDay := 5 }).days).1 1 1 + 5 := by
  refine ⟨⟨rfl, by decide⟩, ?_⟩
  exact C8_theorem { YearDay := 5 } rfl (by decide)

/-! ### Claim C9 -/

theorem drop_after {s : List Char} {pos : Nat} {ds r : List Char}
    (h : s.drop pos = ds ++ r) : s.drop (pos + ds.length) = r := by
  have h2 := congrArg (List.drop ds.length) h
  rw [List.drop_drop] at h2
  rw [h2, List.drop_left]

theorem ipv4_step (quote : Char) (n : Nat) (buf : List Char) (h : Host)
    {s : List Char} {pos : Nat} {pr : Option Nat} {ds t : List Char}
    (hdrop : s.drop pos = ds ++ '.' :: t)
    (hds : ∀ d ∈ ds, isDigit d = true) (hle : decimalVal ds ≤ 255) :
    parseIPv4Go quote (n + 2) buf h ⟨s, pos, pr⟩ =
      parseIPv4Go quote (n + 1) (buf ++ (intItoa (decimalVal ds) ++ ['.'])) h
        ⟨s, pos + ds.length + 1, some (pos + ds.length)⟩ := by
  have hj : (if decimalVal ds = 0 then (0 : Int) else decimalVal ds) = decimalVal ds := by
    split <;> omega
  have hnn := decimalVal_nonneg hds
  have hdot : s.drop (pos + ds.length) = '.' :: t := drop_after hdrop
  rw [show n + 2 = (n + 1) + 1 from rfl]
  simp only [parseIPv4Go,
    parseInt_var hdrop hds (show isDigit '.' = false from by decide)
      (le_trans hle (by norm_num)), hj]
  rw [if_neg (show ¬(decimalVal ds < 0 ∨ decimalVal ds > 255) from by omega)]
  rw [if_neg (show ¬(n + 1 = 0) from by omega)]
  simp only [peek_of_drop hdot, read_of_drop hdot,
    eq_false (show ¬(('.' : Char) ≠ '.') from by simp), if_false,
    List.append_assoc]

theorem ipv4_last (quote : Char) (buf : List Char) (h : Host)
    {s : List Char} {pos : Nat} {pr : Option Nat} {ds : List Char} {x : Char} {t : List Char}
    (hdrop : s.drop pos = ds ++ x :: t)
    (hds : ∀ d ∈ ds, isDigit d = true) (hx : isDigit x = false)
    (hle : decimalVal ds ≤ 255) (hq : quote ≠ '[') :
    parseIPv4Go quote 1 buf h ⟨s, pos, pr⟩ =
      ({ h with Addr := String.mk (buf ++ intItoa (decimalVal ds)) },
        ⟨s, pos + ds.length, none⟩, none) := by
  have hj : (if decimalVal ds = 0 then (0 : Int) else decimalVal ds) = decimalVal ds := by
    split <;> omega
  have hnn := decimalVal_nonneg hds
  rw [show (1 : Nat) = 0 + 1 from rfl]
  simp only [parseIPv4Go, parseInt_var hdrop hds hx (le_trans hle (by norm_num)), hj]
  rw [if_neg (show ¬(decimalVal ds < 0 ∨ decimalVal ds > 255) from by omega)]
  rw [if_pos trivial]
  simp only [hostAddrEnd, peek_of_drop (drop_after hdrop)]
  rw [if_neg hq]

theorem ipv4_bad (quote : Char) (n : Nat) (buf : List Char) (h : Host)
    {s : List Char} {pos : Nat} {pr : Option Nat} {ds : List Char} {x : Char} {t : List Char}
    (hdrop : s.drop pos = ds ++ x :: t)
    (hds : ∀ d ∈ ds, isDigit d = true) (hx : isDigit x = false)
    (hb : decimalVal ds ≤ 9223372036854775807) (hgt : 255 < decimalVal ds) :
    parseIPv4Go quote (n + 1) buf h ⟨s, pos, pr⟩ =
      (h, ⟨s, pos + ds.length, none⟩, some Err.pattern) := by
  have hj : (if decimalVal ds = 0 then (0 : Int) else decimalVal ds) = decimalVal ds := by
    split <;> omega
  simp only [parseIPv4Go, parseInt_var hdrop hds hx hb, hj]
  rw [if_pos (Or.inr hgt)]

theorem ipv4_nodot (quote : Char) (n : Nat) (buf : List Char) (h : Host)
    {s : List Char} {pos : Nat} {pr : Option Nat} {ds : List Char} {y : Char} {t : List Char}
    (hdrop : s.drop pos = ds ++ y :: t)
    (hds : ∀ d ∈ ds, isDigit d = true) (hy : isDigit y = false) (hyd : y ≠ '.')
    (hle : decimalVal ds ≤ 255) :
    parseIPv4Go quote (n + 2) buf h ⟨s, pos, pr⟩ =
      (h, ⟨s, pos + ds.length, none⟩, some Err.pattern) := by
  have hj : (if decimalVal ds = 0 then (0 : Int) else decimalVal ds) = decimalVal ds := by
    split <;> omega
  have hnn := decimalVal_nonneg hds
  rw [show n + 2 = (n + 1) + 1 from rfl]
  simp only [parseIPv4Go, parseInt_var hdrop hds hy (le_trans hle (by norm_num)), hj]
  rw [if_neg (show ¬(decimalVal ds < 0 ∨ decimalVal ds > 255) from by omega)]
  rw [if_neg (show ¬(n + 1 = 0) from by omega)]
  simp only [peek_of_drop (drop_after hdrop)]
  rw [if_pos hyd]

/-- Claim C9 corrected: an empty octet group is not a mismatch — the
variable-width integer read succeeds on zero digits with value 0, so
".1.2.3 " scans successfully as the address "0.1.2.3". -/
theorem C9_counterexample :
    (parseIPv4 {} (Cursor.ofString ".1.2.3 ")).2.2 = none ∧
    (parseIPv4 {} (Cursor.ofString ".1.2.3 ")).1.Addr = "0.1.2.3" := by
  constructor <;> rfl

/-- Claim C9 amended: the %4 scanner accepts four dot-separated runs
of digits whose values are at most 255 — including empty runs, read
as 0 — rendering them into the address; a group value above 255 is a
pattern mismatch, and a non-final group followed by anything other
than a dot (or another digit) is a pattern mismatch. -/
theorem C9_theorem :
    (∀ (h : Host) (d1 : Char) (ds1 ds2 ds3 ds4 : List Char) (x : Char) (t : List Char),
      isDigit d1 = true → (∀ d ∈ ds1, isDigit d = true) →
      (∀ d ∈ ds2, isDigit d = true) → (∀ d ∈ ds3, isDigit d = true) →
      (∀ d ∈ ds4, isDigit d = true) → isDigit x = false →
      decimalVal (d1 :: ds1) ≤ 255 → decimalVal ds2 ≤ 255 → decimalVal ds3 ≤ 255 →
      decimalVal ds4 ≤ 255 →
      (parseIPv4 h ⟨(d1 :: ds1) ++ '.' :: (ds2 ++ '.' :: (ds3 ++ '.' :: (ds4 ++ x :: t))),
          0, none⟩).1 =
        { h with Addr := String.mk (intItoa (decimalVal (d1 :: ds1)) ++ '.' ::
            (intItoa (decimalVal ds2) ++ '.' :: (intItoa (decimalVal ds3) ++ '.' ::
              intItoa (decimalVal ds4)))) } ∧
      (parseIPv4 h ⟨(d1 :: ds1) ++ '.' :: (ds2 ++ '.' :: (ds3 ++ '.' :: (ds4 ++ x :: t))),
          0, none⟩).2.2 = none) ∧
    (∀ (quote : Char) (n : Nat) (buf : List Char) (h : Host) (s : List Char)
        (pos : Nat) (pr : Option Nat) (ds : List Char) (x : Char) (t : List Char),
      s.drop pos = ds ++ x :: t → (∀ d ∈ ds, isDigit d = true) → isDigit x = false →
      decimalVal ds ≤ 9223372036854775807 → 255 < decimalVal ds →
      (parseIPv4Go quote (n + 1) buf h ⟨s, pos, pr⟩).2.2 = some Err.pattern) ∧
    (∀ (quote : Char) (n : Nat) (buf : List Char) (h : Host) (s : List Char)
        (pos : Nat) (pr : Option Nat) (ds : List Char) (y : Char) (t : List Char),
      s.drop pos = ds ++ y :: t → (∀ d ∈ ds, isDigit d = true) → isDigit y = false →
      y ≠ '.' → decimalVal ds ≤ 255 →
      (parseIPv4Go quote (n + 2) buf h ⟨s, pos, pr⟩).2.2 = some Err.pattern) := by
  refine ⟨?_, ?_, ?_⟩
  · intro h d1 ds1 ds2 ds3 ds4 x t hd1 h1 h2 h3 h4 hx b1 b2 b3 b4
    have hq : d1 ≠ '[' := by
      intro he
      rw [he] at hd1
      exact absurd hd1 (by decide)
    have h1' : ∀ d ∈ d1 :: ds1, isDigit d = true := by
      intro d hd
      rcases List.mem_cons.mp hd with rfl | hm
      · exact hd1
      · exact h1 d hm
    have e1 : ((d1 :: ds1) ++ '.' :: (ds2 ++ '.' :: (ds3 ++ '.' :: (ds4 ++ x :: t)))).drop
        0 = (d1 :: ds1) ++ '.' :: (ds2 ++ '.' :: (ds3 ++ '.' :: (ds4 ++ x :: t))) := rfl
    have e0 : ((d1 :: ds1) ++ '.' :: (ds2 ++ '.' :: (ds3 ++ '.' :: (ds4 ++ x :: t)))).drop
        0 = d1 :: (ds1 ++ '.' :: (ds2 ++ '.' :: (ds3 ++ '.' :: (ds4 ++ x :: t)))) := rfl
    have e2 := drop_after
      (show ((d1 :: ds1) ++ '.' :: (ds2 ++ '.' :: (ds3 ++ '.' :: (ds4 ++ x :: t)))).drop
          (0 + (d1 :: ds1).length) = ['.'] ++ (ds2 ++ '.' :: (ds3 ++ '.' :: (ds4 ++ x :: t)))
        from drop_after e1)
    simp only [List.length_singleton] at e2
    have e3 := drop_after
      (show ((d1 :: ds1) ++ '.' :: (ds2 ++ '.' :: (ds3 ++ '.' :: (ds4 ++ x :: t)))).drop
          (0 + (d1 :: ds1).length + 1 + ds2.length) =
          ['.'] ++ (ds3 ++ '.' :: (ds4 ++ x :: t))
        from drop_after e2)
    simp only [List.length_singleton] at e3
    have e4 := drop_after
      (show ((d1 :: ds1) ++ '.' :: (ds2 ++ '.' :: (ds3 ++ '.' :: (ds4 ++ x :: t)))).drop
          (0 + (d1 :: ds1).length + 1 + ds2.length + 1 + ds3.length) =
          ['.'] ++ (ds4 ++ x :: t)
        from drop_after e3)
    simp only [List.length_singleton] at e4
    refine ⟨?_, ?_⟩
    · simp only [parseIPv4, peek_of_drop e0]
      rw [if_neg hq]
      rw [show ip4len = 2 + 2 from rfl]
      rw [ipv4_step d1 2 [] h e1 h1' b1]
      rw [show (2 + 1 : Nat) = 1 + 2 from rfl]
      rw [ipv4_step d1 1 _ h e2 h2 b2]
      rw [show (1 + 1 : Nat) = 0 + 2 from rfl]
      rw [ipv4_step d1 0 _ h e3 h3 b3]
      rw [show (0 + 1 : Nat) = 1 from rfl]
      rw [ipv4_last d1 _ h e4 h4 hx b4 hq]
      simp only [List.nil_append, List.append_assoc, List.singleton_append, List.cons_append]
    · simp only [parseIPv4, peek_of_drop e0]
      rw [if_neg hq]
      rw [show ip4len = 2 + 2 from rfl]
      rw [ipv4_step d1 2 [] h e1 h1' b1]
      rw [show (2 + 1 : Nat) = 1 + 2 from rfl]
      rw [ipv4_step d1 1 _ h e2 h2 b2]
      rw [show (1 + 1 : Nat) = 0 + 2 from rfl]
      rw [ipv4_step d1 0 _ h e3 h3 b3]
      rw [show (0 + 1 : Nat) = 1 from rfl]
      rw [ipv4_last d1 _ h e4 h4 hx b4 hq]
  · intro quote n buf h s pos pr ds x t hdrop hds hx hb hgt
    rw [ipv4_bad quote n buf h hdrop hds hx hb hgt]
  · intro quote n buf h s pos pr ds y t hdrop hds hy hyd hle
    rw [ipv4_nodot quote n buf h hdrop hds hy hyd hle]

theorem C9_witness :
    (isDigit '1' = true ∧ isDigit ' ' = false ∧
      decimalVal ('1' :: []) ≤ 255 ∧ decimalVal ['2'] ≤ 255 ∧
      decimalVal ['3'] ≤ 255 ∧ decimalVal ['4'] ≤ 255) ∧
    (parseIPv4 {}
        ⟨('1' :: []) ++ '.' :: (['2'] ++ '.' :: (['3'] ++ '.' :: (['4'] ++ ' ' :: []))),
          0, none⟩).1 =
      { ({} : Host) with Addr := String.mk (intItoa (decimalVal ('1' :: [])) ++ '.' ::
          (intItoa (decimalVal ['2']) ++ '.' :: (intItoa (decimalVal ['3']) ++ '.' ::
            intItoa (decimalVal ['4'])))) } := by
  refine ⟨⟨by decide, by decide, by decide, by decide, by decide, by decide⟩, ?_⟩
  exact (C9_theorem.1 {} '1' [] ['2'] ['3'] ['4'] ' ' [] (by decide) (by decide)
    (by decide) (by decide) (by decide) (by decide) (by decide) (by decide) (by decide)
    (by decide)).1

end GoLog




